import Mathlib

/-!
Verification development for the in-memory operations store of a LangGraph
API server.  The definitions below are a shallow embedding of the storage
module (`storage/ops.mts`): assistants, threads, runs, the per-run stream
bus, the pending-run picker, run creation with the multitask guard, and
cancellation.  JavaScript objects used as string-keyed records are embedded
as insertion-ordered association lists, `Date` values as integer
milliseconds, and thrown `HTTPException`s as an `Except` error type.
-/

/-! ## JSON-like values

Metadata, configs and checkpoint payload values are arbitrary JSON-ish data
in the source (`Record<string, unknown>`).  They are embedded as a value
universe of null, undefined, booleans, integers, strings and string-keyed
objects; JSON arrays do not occur in the fragments the verified operations
exercise. -/

inductive JsonValue where
  | null
  | undef
  | bool (b : Bool)
  | num (n : Int)
  | str (s : String)
  | obj (fields : List (String × JsonValue))

/-- A JavaScript object: insertion-ordered list of key–value pairs. -/
abbrev JsObj := List (String × JsonValue)

/-- Reading `o[k]`: the value at the first occurrence of key `k`. -/
def alookup (l : List (String × α)) (k : String) : Option α :=
  (l.find? (fun p => p.1 == k)).map (·.2)

/-- JavaScript assignment `o[k] = v`: overwrite in place if the key exists,
append otherwise. -/
def aset (l : List (String × α)) (k : String) (v : α) : List (String × α) :=
  if l.any (fun p => p.1 == k) then l.map (fun p => if p.1 == k then (k, v) else p)
  else l ++ [(k, v)]

/-- JavaScript `delete o[k]`. -/
def adelete (l : List (String × α)) (k : String) : List (String × α) :=
  l.filter (fun p => p.1 != k)

/-- `Object.assign(base, src)`: copy the entries of `src` onto `base` in order. -/
def assign (base src : List (String × α)) : List (String × α) :=
  src.foldl (fun acc p => aset acc p.1 p.2) base

/-- `Object.assign` skips `undefined`/absent sources. -/
def assignOpt (base : List (String × α)) (src : Option (List (String × α))) :
    List (String × α) :=
  match src with
  | some s => assign base s
  | none => base

/-- JavaScript `x == null` (true for both `null` and `undefined`). -/
def jsIsNullish : JsonValue → Bool
  | .null => true
  | .undef => true
  | _ => false

/- Structural rendering of JavaScript strict equality on the values that occur
in metadata filters.  The object case is only consulted by `jsonContains` below
when at most one side is an object, where `===` is false anyway unless the
values coincide. -/
mutual
def jsonBeq : JsonValue → JsonValue → Bool
  | .null, .null => true
  | .undef, .undef => true
  | .bool x, .bool y => x == y
  | .num x, .num y => x == y
  | .str x, .str y => x == y
  | .obj xs, .obj ys => jsonBeqObj xs ys
  | _, _ => false

def jsonBeqObj : JsObj → JsObj → Bool
  | [], [] => true
  | (k, v) :: rest, (k2, v2) :: rest2 => k == k2 && jsonBeq v v2 && jsonBeqObj rest rest2
  | _, _ => false
end

/- Embedding of `isJsonbContained(superset, subset)` from the source: every
entry of the subset must be present and non-null in the superset, recursively
for object-valued entries, by strict equality otherwise. -/
mutual
def jsonContains (sup sub : JsObj) : Bool :=
  match sub with
  | [] => true
  | (k, v) :: rest => jsonContainsEntry sup k v && jsonContains sup rest

def jsonContainsEntry (sup : JsObj) (k : String) (v : JsonValue) : Bool :=
  match alookup sup k with
  | none => false
  | some sv =>
    if jsIsNullish sv then false
    else
      match v, sv with
      | .obj vo, .obj so => jsonContains so vo
      | v2, _ => jsonBeq sv v2
end

/-- Reading `o[k]` when an object is expected there (`config?.configurable`);
non-object values are not produced by the typed source. -/
def getObjField (o : List (String × JsonValue)) (k : String) : Option JsObj :=
  match alookup o k with
  | some (.obj fields) => some fields
  | _ => none

/-! ## Enumerations and records of the data model -/

inductive ThreadStatus where
  | idle
  | busy
  | interrupted
  | error
deriving DecidableEq

inductive RunStatus where
  | pending
  | running
  | error
  | success
  | timeout
  | interrupted
deriving DecidableEq

inductive MultitaskStrategy where
  | reject
  | rollback
  | interrupt
  | enqueue
deriving DecidableEq

inductive OnConflictBehavior where
  | raise
  | do_nothing
deriving DecidableEq

inductive IfNotExists where
  | create
  | reject
deriving DecidableEq

/-- Reason carried by a fired `CancellationAbortController`. -/
inductive CancelAction where
  | interrupt
  | rollback
deriving DecidableEq

/-- Thrown `HTTPException`s and plain `Error`s. -/
inductive Err where
  | http (status : Nat) (message : String)
  | other (message : String)
deriving DecidableEq

structure Assistant where
  name : Option String := none
  assistant_id : String
  graph_id : String
  created_at : Int
  updated_at : Int
  version : Int
  config : JsObj := []
  metadata : JsObj := []

structure AssistantVersion where
  assistant_id : String
  version : Int
  graph_id : String
  config : JsObj := []
  metadata : JsObj := []
  created_at : Int
  name : Option String := none

structure Thread where
  thread_id : String
  created_at : Int
  updated_at : Int
  metadata : JsObj := []
  config : Option JsObj := none
  status : ThreadStatus
  values : Option JsObj := none
  interrupts : Option JsObj := none

structure CheckpointTask where
  id : String
  name : String := ""
  error : Option String := none
  interrupts : JsObj := []
  state : Option JsObj := none

structure CheckpointPayload where
  config : Option JsObj := none
  metadata : JsObj := []
  values : JsObj := []
  next : List String := []
  parent_config : Option JsObj := none
  tasks : List CheckpointTask := []

/-- Execution arguments of a run.  Only `config` is consulted and rewritten by
the embedded operations; the remaining keys ride along unchanged in `extra`. -/
structure RunKwargs where
  input : Option JsonValue := none
  command : Option JsonValue := none
  stream_mode : List String := []
  config : Option JsObj := none
  extra : JsObj := []

structure Run where
  run_id : String
  thread_id : String
  assistant_id : String
  created_at : Int
  updated_at : Int
  status : RunStatus
  metadata : JsObj := []
  kwargs : RunKwargs := {}
  multitask_strategy : MultitaskStrategy := .reject

/-- The aggregate document guarded by the `FileSystemPersistence` connection. -/
structure Store where
  runs : List (String × Run) := []
  threads : List (String × Thread) := []
  assistants : List (String × Assistant) := []
  assistant_versions : List AssistantVersion := []
  retry_counter : List (String × Int) := []

/-- The empty aggregate document the persistence layer constructs on first
access. -/
def emptyStore : Store := {}

/-! ## Stream bus: per-run queue

`Queue.push` appends to the buffer and wakes registered listeners.  `get`
returns the head of a non-empty buffer immediately; on an empty buffer it
registers one waiter together with a timer of the requested duration and an
abort listener, and is then resolved by whichever event fires first.  The
passage of real time is abstracted into the order in which those events
arrive. -/

structure Message where
  topic : String
  data : JsonValue := .null

def Queue.push (buffer : List Message) (m : Message) : List Message :=
  buffer ++ [m]

/-- The immediate path of `Queue.get`: `buffer.shift()` on a non-empty buffer. -/
def Queue.getReady (buffer : List Message) : Option (Message × List Message) :=
  match buffer with
  | [] => none
  | m :: rest => some (m, rest)

/-- State of a `get` that found the buffer empty: one registered waiter, a
pending timer of the requested duration, and the abort hook if a signal was
supplied. -/
structure PendingGet where
  timeoutMs : Int
  hasAbortHook : Bool
  waiterRegistered : Bool := true

/-- Entry of `Queue.get`: serve from the buffer, or suspend with a registered
waiter. -/
def Queue.getStart (buffer : List Message) (timeoutMs : Int) (hasSignal : Bool) :
    Sum (Message × List Message) PendingGet :=
  match buffer with
  | m :: rest => .inl (m, rest)
  | [] => .inr { timeoutMs := timeoutMs, hasAbortHook := hasSignal }

/-- Events that can resolve a suspended `get`. -/
inductive GetEvent where
  | arrival (m : Message)
  | timerFired
  | aborted

/-- Outcomes of a suspended `get`. -/
inductive GetResult where
  | delivered (m : Message)
  | failedTimeout
  | failedAborted

/-- Resolution of a suspended `get` by the first event that fires, mirroring
the three handlers in the source: a push wakes the waiter (which deregisters
itself, clears the timer and shifts the buffer), the timer rejects with
`TimeoutError` and removes the waiter, the abort hook rejects with
`AbortError` and removes the waiter.  The returned flag is whether the waiter
is still registered afterwards. -/
def Queue.pendingStep (buffer : List Message) :
    GetEvent → GetResult × List Message × Bool
  | .arrival m =>
    match buffer with
    | [] => (.delivered m, [], false)
    | x :: rest => (.delivered x, rest ++ [m], false)
  | .timerFired => (.failedTimeout, buffer, false)
  | .aborted => (.failedAborted, buffer, false)

/-- Dequeue `n` messages by iterating the immediate path of `get`. -/
def Queue.getSeq (buffer : List Message) : Nat → List Message
  | 0 => []
  | n + 1 =>
    match Queue.getReady buffer with
    | none => []
    | some (m, rest) => m :: Queue.getSeq rest n

/-! ## Assistant store -/

/-- JS `options.name || options.graph_id`: an absent or empty name falls back
to the graph id. -/
def jsStringOr (name : Option String) (fallback : String) : String :=
  match name with
  | some s => if s = "" then fallback else s
  | none => fallback

structure AssistantsPutOptions where
  config : Option JsObj := none
  graph_id : String
  metadata : Option JsObj := none
  if_exists : OnConflictBehavior := .raise
  name : Option String := none

/-- Embedding of `Assistants.put`.  Returns the stored assistant together with
the updated aggregate document. -/
def Assistants.put (S : Store) (assistantId : String) (options : AssistantsPutOptions)
    (now : Int) : Except Err (Assistant × Store) :=
  match alookup S.assistants assistantId with
  | some existing =>
    if options.if_exists = .raise then .error (.http 409 "Assistant already exists")
    else .ok (existing, S)
  | none =>
    let newAssistant : Assistant := {
      assistant_id := assistantId
      version := 1
      config := options.config.getD []
      created_at := now
      updated_at := now
      graph_id := options.graph_id
      metadata := options.metadata.getD []
      name := some (jsStringOr options.name options.graph_id) }
    let entry : AssistantVersion := {
      assistant_id := assistantId
      version := 1
      graph_id := options.graph_id
      config := options.config.getD []
      metadata := options.metadata.getD []
      created_at := now
      name := some (jsStringOr options.name options.graph_id) }
    .ok (newAssistant,
      { S with assistants := aset S.assistants assistantId newAssistant
               assistant_versions := S.assistant_versions ++ [entry] })

structure AssistantsPatchOptions where
  config : Option JsObj := none
  graph_id : Option String := none
  metadata : Option JsObj := none
  name : Option String := none

/-- Rendering of JS `Math.max(...)` over a list of integers.  A JS spread of an
empty list yields negative infinity; assistant versions are positive integers,
so a large negative sentinel stands in for that value. -/
def jsNegInfinity : Int := -(2 ^ 62)

def jsMathMax (l : List Int) : Int := l.foldl max jsNegInfinity

/-- Embedding of `Assistants.patch`: merge the patched fields into the live
assistant, bump its version to one past the maximum recorded version for this
assistant, and append the corresponding `AssistantVersion` snapshot.  The
source builds the snapshot from `options?.x ?? assistant["x"]` after having
already written the patched fields into `assistant`, so the snapshot carries
exactly the patched assistant's fields. -/
def Assistants.patch (S : Store) (assistantId : String) (options : AssistantsPatchOptions)
    (now : Int) : Except Err (Assistant × Store) :=
  match alookup S.assistants assistantId with
  | none => .error (.http 404 "Assistant not found")
  | some assistant =>
    let metadata : Option JsObj := options.metadata.map (fun m => assign (assign [] assistant.metadata) m)
    let patched : Assistant := { assistant with
      graph_id := options.graph_id.getD assistant.graph_id
      config := options.config.getD assistant.config
      name := options.name.or assistant.name
      metadata := metadata.getD assistant.metadata
      updated_at := now }
    let newVersion : Int :=
      jsMathMax (((S.assistant_versions.filter (fun v => v.assistant_id == assistantId)).map
        (fun v => v.version))) + 1
    let bumped : Assistant := { patched with version := newVersion }
    let entry : AssistantVersion := {
      assistant_id := assistantId
      version := newVersion
      graph_id := patched.graph_id
      config := patched.config
      name := patched.name
      metadata := patched.metadata
      created_at := now }
    .ok (bumped,
      { S with assistants := aset S.assistants assistantId bumped
               assistant_versions := S.assistant_versions ++ [entry] })

/-- Embedding of `Assistants.setLatest`: copy a recorded version back into the
live assistant. -/
def Assistants.setLatest (S : Store) (assistantId : String) (version : Int)
    (now : Int) : Except Err (Assistant × Store) :=
  match alookup S.assistants assistantId with
  | none => .error (.http 404 "Assistant not found")
  | some assistant =>
    match S.assistant_versions.find?
        (fun v => v.assistant_id == assistantId && v.version == version) with
    | none => .error (.http 404 "Assistant version not found")
    | some av =>
      let restored : Assistant := { assistant with
        config := av.config
        metadata := av.metadata
        version := av.version
        name := av.name
        updated_at := now }
      .ok (restored, { S with assistants := aset S.assistants assistantId restored })

/-- Embedding of `Assistants.delete`: remove the assistant, its version
snapshots, and every run referencing it (the source deletes each such run by
its `run_id` field). -/
def Assistants.delete (S : Store) (assistantId : String) : Except Err (List String × Store) :=
  match alookup S.assistants assistantId with
  | none => .error (.http 404 "Assistant not found")
  | some assistant =>
    .ok ([assistant.assistant_id],
      { S with assistants := adelete S.assistants assistantId
               assistant_versions :=
                 S.assistant_versions.filter (fun v => v.assistant_id != assistantId)
               runs := (S.runs.map Prod.snd).foldl
                 (fun rs run =>
                   if run.assistant_id == assistantId then adelete rs run.run_id else rs)
                 S.runs })

/-- The four assistant-store mutations of claim C7, as events. -/
inductive AOp where
  | put (assistantId : String) (options : AssistantsPutOptions) (now : Int)
  | patch (assistantId : String) (options : AssistantsPatchOptions) (now : Int)
  | setLatest (assistantId : String) (version : Int) (now : Int)
  | del (assistantId : String)

/-- Apply one assistant-store operation; a thrown `HTTPException` leaves the
aggregate document unchanged (each operation validates before mutating). -/
def applyAOp (S : Store) : AOp → Store
  | .put assistantId options now =>
    match Assistants.put S assistantId options now with
    | .ok (_, S2) => S2
    | .error _ => S
  | .patch assistantId options now =>
    match Assistants.patch S assistantId options now with
    | .ok (_, S2) => S2
    | .error _ => S
  | .setLatest assistantId version now =>
    match Assistants.setLatest S assistantId version now with
    | .ok (_, S2) => S2
    | .error _ => S
  | .del assistantId =>
    match Assistants.delete S assistantId with
    | .ok (_, S2) => S2
    | .error _ => S

/-- Apply a sequence of assistant-store operations to the freshly constructed
empty document. -/
def applyAOps (ops : List AOp) : Store := ops.foldl applyAOp emptyStore

/-! ## Thread store -/

structure ThreadsPutOptions where
  metadata : Option JsObj := none
  if_exists : OnConflictBehavior := .raise

/-- Embedding of `Threads.put`. -/
def Threads.put (S : Store) (threadId : String) (options : Option ThreadsPutOptions)
    (now : Int) : Except Err (Thread × Store) :=
  match alookup S.threads threadId with
  | some existing =>
    if options.map (fun o => o.if_exists) = some .raise then
      .error (.http 409 "Thread already exists")
    else .ok (existing, S)
  | none =>
    let t : Thread := {
      thread_id := threadId
      created_at := now
      updated_at := now
      metadata := (options.bind (fun o => o.metadata)).getD []
      status := .idle
      config := some []
      values := none }
    .ok (t, { S with threads := aset S.threads threadId t })

/-- The `interrupts` projection of `Threads.setStatus`: `task.id → task.interrupts`
over the checkpoint's tasks.  The source guards each entry with the truthiness
of `task.interrupts`, which always holds since the field is a (truthy) object. -/
def interruptsFromTasks (tasks : List CheckpointTask) : JsObj :=
  tasks.foldl (fun acc task => aset acc task.id (.obj task.interrupts)) []

/-- Embedding of `Threads.setStatus`: derive the thread status from the
optional exception, the checkpoint's `next` list and the presence of pending
runs; project `values` and `interrupts` from the checkpoint; advance
`updated_at`. -/
def Threads.setStatus (S : Store) (threadId : String) (checkpoint : Option CheckpointPayload)
    (exception : Option String) (now : Int) : Except Err Store :=
  match alookup S.threads threadId with
  | none => .error (.http 404 "Thread not found")
  | some thread =>
    let hasNext : Bool :=
      match checkpoint with
      | some cp => decide (0 < cp.next.length)
      | none => false
    let hasPendingRuns : Bool := (S.runs.map Prod.snd).any
      (fun run => run.thread_id == threadId && run.status == .pending)
    let status : ThreadStatus :=
      if exception.isSome then .error
      else if hasNext then .interrupted
      else if hasPendingRuns then .busy
      else .idle
    let t2 : Thread := { thread with
      updated_at := now
      status := status
      values := checkpoint.map (fun cp => cp.values)
      interrupts := checkpoint.map (fun cp => interruptsFromTasks cp.tasks) }
    .ok { S with threads := aset S.threads threadId t2 }

/-! ## Run store -/

structure RunsPutOptions where
  threadId : Option String := none
  userId : Option String := none
  status : Option RunStatus := none
  metadata : Option JsObj := none
  preventInsertInInflight : Bool := false
  multitaskStrategy : Option MultitaskStrategy := none
  ifNotExists : Option IfNotExists := none
  afterSeconds : Option Int := none

/-- JS `a ?? b` on property reads: an absent, `undefined` or `null` value on
the left falls through to the right. -/
def jsNullishOr (a b : Option JsonValue) : Option JsonValue :=
  match a with
  | some v => if jsIsNullish v then b else some v
  | none => b

/-- Replace the first thread whose `thread_id` field matches, mirroring an
in-place mutation of the object returned by `Object.values(...).find(...)`. -/
def updateFirstThread (l : List (String × Thread)) (tid : String) (t2 : Thread) :
    List (String × Thread) :=
  match l with
  | [] => []
  | (k, t) :: rest =>
    if t.thread_id == tid then (k, t2) :: rest
    else (k, t) :: updateFirstThread rest tid t2

/-- The `user_id` synthesized into a new run's configurable: the first
non-nullish of the user, thread and assistant configurables' `user_id`, then
`options.userId`; `undefined` when every layer misses. -/
def runUserId (config : JsObj) (threadConfig : Option JsObj) (assistantConfig : JsObj)
    (userId : Option String) : JsonValue :=
  (jsNullishOr
    (jsNullishOr
      (jsNullishOr
        ((getObjField config "configurable").bind (fun c => alookup c "user_id"))
        ((threadConfig.bind (fun c => getObjField c "configurable")).bind
          (fun c => alookup c "user_id")))
      ((getObjField assistantConfig "configurable").bind (fun c => alookup c "user_id")))
    (userId.map (fun s => JsonValue.str s))).getD (JsonValue.undef)

/-- The thread the source's `Runs.put` finds for the requested thread id
(`Object.values(STORE.threads).find(t => t.thread_id === threadId)`). -/
def existingThreadOf (S : Store) (options : RunsPutOptions) : Option Thread :=
  (S.threads.map Prod.snd).find?
    (fun t => match options.threadId with
      | some tid => t.thread_id == tid
      | none => false)

/-- The `configurable` object of a config, empty when absent. -/
def configurableOf (config : JsObj) : JsObj :=
  (getObjField config "configurable").getD []

/-- The thread-resolution phase of `Runs.put`, mirroring the source's
three-way branch: create a thread when none exists and creation is allowed
(`freshThreadId` renders the `uuid4()` drawn when no id was supplied), mark an
existing non-busy thread busy while merging in the assistant and user config,
or reject.  The result carries the thread object that later reads of
`existingThread` observe (the source mutates it in place) together with the
updated thread table. -/
def resolveThread (S : Store) (assistant : Assistant) (assistantId : String)
    (kwargs : RunKwargs) (options : RunsPutOptions) (now : Int) (freshThreadId : String) :
    Option (Option Thread × List (String × Thread)) :=
  let config : JsObj := kwargs.config.getD []
  let threadId := options.threadId.getD freshThreadId
  match existingThreadOf S options with
  | none =>
    if options.threadId = none ∨ options.ifNotExists.getD .reject = .create then
      let newThread : Thread := {
        thread_id := threadId
        status := .busy
        metadata := [("graph_id", .str assistant.graph_id),
          ("assistant_id", .str assistantId)]
        config := some (aset (assign (assign [] assistant.config) config)
          "configurable"
          (.obj (assignOpt (assignOpt [] (getObjField assistant.config "configurable"))
            (getObjField config "configurable"))))
        created_at := now
        updated_at := now }
      some (none, aset S.threads threadId newThread)
    else none
  | some t =>
    if t.status = .busy then some (some t, S.threads)
    else
      let t2 : Thread := { t with
        status := .busy
        metadata := assign (assign [] t.metadata)
          [("graph_id", .str assistant.graph_id), ("assistant_id", .str assistantId)]
        config := some (aset (assign (assignOpt (assign [] assistant.config) t.config)
            config)
          "configurable"
          (.obj (assignOpt
            (assignOpt (assignOpt [] (getObjField assistant.config "configurable"))
              (t.config.bind (fun c => getObjField c "configurable")))
            (getObjField config "configurable"))))
        updated_at := now }
      some (some t2, updateFirstThread S.threads t.thread_id t2)

/-- The configurable `Runs.put` synthesizes into a new run's config:
`Object.assign` of the assistant, thread and user configurables and the
synthesized identity keys.  `threadNow` is the thread object `existingThread`
refers to after the resolution phase. -/
def builtConfigurable (assistant : Assistant) (assistantId : String) (runId : String)
    (kwargs : RunKwargs) (options : RunsPutOptions) (threadId : String)
    (threadNow : Option Thread) : JsObj :=
  assign
    (assignOpt
      (assignOpt (assignOpt [] (getObjField assistant.config "configurable"))
        ((threadNow.bind (fun t => t.config)).bind
          (fun c => getObjField c "configurable")))
      (getObjField (kwargs.config.getD []) "configurable"))
    [("run_id", .str runId), ("thread_id", .str threadId),
      ("graph_id", .str assistant.graph_id), ("assistant_id", .str assistantId),
      ("user_id", runUserId (kwargs.config.getD []) (threadNow.bind (fun t => t.config))
        assistant.config options.userId)]

/-- The metadata `Runs.put` merges into a new run. -/
def builtMergedMetadata (assistant : Assistant) (options : RunsPutOptions)
    (threadNow : Option Thread) : JsObj :=
  assign
    (assignOpt (assign [] assistant.metadata) (threadNow.map (fun t => t.metadata)))
    (options.metadata.getD [])

/-- The config written into a new run's `kwargs.config`. -/
def builtRunConfig (assistant : Assistant) (assistantId : String) (runId : String)
    (kwargs : RunKwargs) (options : RunsPutOptions) (threadId : String)
    (threadNow : Option Thread) : JsObj :=
  aset
    (aset (assign (assign [] assistant.config) (kwargs.config.getD [])) "configurable"
      (.obj (builtConfigurable assistant assistantId runId kwargs options threadId threadNow)))
    "metadata"
    (.obj (builtMergedMetadata assistant options threadNow))

/-- The run record built by `Runs.put`: the synthesized configurable and the
merged metadata are written into `kwargs.config`, and `created_at` is
scheduled `afterSeconds` into the future. -/
def buildNewRun (assistant : Assistant) (assistantId : String) (runId : String)
    (kwargs : RunKwargs) (options : RunsPutOptions) (now : Int) (threadId : String)
    (threadNow : Option Thread) : Run :=
  let runConfig : JsObj :=
    builtRunConfig assistant assistantId runId kwargs options threadId threadNow
  { run_id := runId
    thread_id := threadId
    assistant_id := assistantId
    metadata := builtMergedMetadata assistant options threadNow
    status := options.status.getD .pending
    kwargs := { kwargs with config := some runConfig }
    multitask_strategy := options.multitaskStrategy.getD .reject
    created_at := now + (options.afterSeconds.getD 0) * 1000
    updated_at := now }

/-- Embedding of `Runs.put`.  The returned list is the new run followed by the
inflight (pending) runs of the thread, or just the inflight runs when
`preventInsertInInflight` suppressed the insert, or empty when the named
thread is absent and `ifNotExists` is `reject`. -/
def Runs.put (S : Store) (runId : String) (assistantId : String) (kwargs : RunKwargs)
    (options : RunsPutOptions) (now : Int) (freshThreadId : String) :
    Except Err (List Run × Store) :=
  match alookup S.assistants assistantId with
  | none => .error (.http 404 ("No assistant found for \"" ++ assistantId ++
      "\". Make sure the assistant ID is for a valid assistant or a valid graph ID."))
  | some assistant =>
    let threadId := options.threadId.getD freshThreadId
    match resolveThread S assistant assistantId kwargs options now freshThreadId with
    | none => .ok ([], S)
    | some (threadNow, threads2) =>
      let S1 : Store := { S with threads := threads2 }
      let inflightRuns : List Run := (S1.runs.map Prod.snd).filter
        (fun run => run.thread_id == threadId && run.status == .pending)
      if options.preventInsertInInflight ∧ 0 < inflightRuns.length then
        .ok (inflightRuns, S1)
      else
        let newRun : Run :=
          buildNewRun assistant assistantId runId kwargs options now threadId threadNow
        .ok (newRun :: inflightRuns, { S1 with runs := aset S1.runs runId newRun })

/-- Embedding of `Runs.delete` (checkpoint deletion is external to the
aggregate document). -/
def Runs.delete (S : Store) (runId : String) (threadId : Option String) :
    Except Err (String × Store) :=
  match alookup S.runs runId with
  | none => .error (.other "Run not found")
  | some run =>
    match threadId with
    | some tid =>
      if run.thread_id != tid then .error (.other "Run not found")
      else .ok (run.run_id, { S with runs := adelete S.runs runId })
    | none => .ok (run.run_id, { S with runs := adelete S.runs runId })

/-- Embedding of `Runs.search`.  The source computes
`runs.slice(offset ?? 0, limit ?? 10)`, whose second argument is an end index. -/
def Runs.search (S : Store) (threadId : String) (limit? : Option Nat) (offset? : Option Nat)
    (status? : Option RunStatus) (metadata? : Option JsObj) : List Run :=
  let runs := (S.runs.map Prod.snd).filter (fun run =>
    run.thread_id == threadId &&
    (match status? with
      | some s => run.status == s
      | none => true) &&
    (match metadata? with
      | some m => jsonContains run.metadata m
      | none => true))
  (runs.take (limit?.getD 10)).drop (offset?.getD 0)

/-- One pass of the `Runs.cancel` loop over the requested run ids, carrying
the document, the found count, the fired cancellation handles, and the runs
scheduled for eager deletion (the `Runs.delete` promises awaited after the
loop).  `controls` is the set of run ids with a registered cancellation
handle in the stream manager. -/
def cancelLoop (controls : List String) (threadId : Option String) (action : CancelAction)
    (now : Int) :
    List String → Store → Nat → List (String × CancelAction) → List String →
    Store × Nat × List (String × CancelAction) × List String
  | [], S, found, fired, dels => (S, found, fired, dels)
  | runId :: rest, S, found, fired, dels =>
    match alookup S.runs runId with
    | none => cancelLoop controls threadId action now rest S found fired dels
    | some run =>
      let mismatch : Bool :=
        match threadId with
        | some tid => run.thread_id != tid
        | none => false
      if mismatch then cancelLoop controls threadId action now rest S found fired dels
      else
        let hasControl := controls.contains runId
        let fired2 := if hasControl then fired ++ [(runId, action)] else fired
        if run.status = .pending then
          if hasControl ∨ action ≠ .rollback then
            let run2 : Run := { run with status := .interrupted, updated_at := now }
            cancelLoop controls threadId action now rest
              { S with runs := aset S.runs runId run2 }
              (found + 1) fired2 dels
          else
            cancelLoop controls threadId action now rest S (found + 1) fired2
              (dels ++ [runId])
        else
          cancelLoop controls threadId action now rest S (found + 1) fired2 dels

/-- Await the deferred `Runs.delete` calls; a failed deletion is recorded but
does not prevent the others from applying (`Promise.all` rejection). -/
def applyDeletes (threadId : Option String) (S : Store) (dels : List String) :
    Store × Bool :=
  dels.foldl (fun acc runId =>
    match Runs.delete acc.1 runId threadId with
    | .ok (_, S2) => (S2, acc.2)
    | .error _ => (acc.1, true)) (S, false)

structure CancelOutcome where
  result : Except Err Unit
  store : Store
  fired : List (String × CancelAction)

/-- Embedding of `Runs.cancel`: walk the requested run ids firing registered
cancellation handles and interrupting or eagerly deleting pending runs, then
fail with 404 when fewer runs were found than requested. -/
def Runs.cancel (S : Store) (controls : List String) (threadId : Option String)
    (runIds : List String) (action? : Option CancelAction) (now : Int) : CancelOutcome :=
  let action := action?.getD .interrupt
  let r1 := cancelLoop controls threadId action now runIds S 0 [] []
  let r2 := applyDeletes threadId r1.1 r1.2.2.2
  if r2.2 then { result := .error (.other "Run not found"), store := r2.1, fired := r1.2.2.1 }
  else if r1.2.1 == runIds.length then
    { result := .ok (), store := r2.1, fired := r1.2.2.1 }
  else
    { result := .error (.http 404 "Run not found"), store := r2.1, fired := r1.2.2.1 }

/-! ## The pending-run picker -/

/-- Insert a run after every element already at or before its `created_at`. -/
def insertByTime (r : Run) : List Run → List Run
  | [] => [r]
  | x :: xs => if x.created_at ≤ r.created_at then x :: insertByTime r xs else r :: x :: xs

/-- Stable ascending sort by `created_at`: the extensional behaviour of the
JS `Array.prototype.sort` call with comparator `a.created_at - b.created_at`
(specified to be stable). -/
def sortByTime (l : List Run) : List Run := l.foldl (fun acc r => insertByTime r acc) []

/-- The abort signal of the cancellation controller `StreamManager.lock`
registers for a run id; `lock` creates the controller and returns its signal,
`unlock` deletes the controller. -/
structure Signal where
  run_id : String
deriving DecidableEq

/-- The iteration of `Runs.next` over the sorted pending runs: skip runs whose
thread is missing and runs already locked in the stream manager (a controller
is registered for their id); otherwise lock the run — registering a fresh
controller whose signal is yielded — bump its retry counter and yield
`(run, attempt, signal)`, unlocking in the generator's `finally` before the
next iteration. -/
def nextLoop (threads : List (String × Thread)) :
    List Run → List (String × Int) → List (String × Signal) →
    List (Run × Int × Signal) × List (String × Int) × List (String × Signal)
  | [], counters, control => ([], counters, control)
  | run :: rest, counters, control =>
    if (alookup threads run.thread_id).isNone then
      nextLoop threads rest counters control
    else if (alookup control run.run_id).isSome then
      nextLoop threads rest counters control
    else
      let signal : Signal := ⟨run.run_id⟩
      let control2 := aset control run.run_id signal
      let attempt := (alookup counters run.run_id).getD 0 + 1
      let counters2 := aset counters run.run_id attempt
      let control3 := adelete control2 run.run_id
      let step := nextLoop threads rest counters2 control3
      ((run, attempt, signal) :: step.1, step.2)

/-- Embedding of `Runs.next`: collect the pending runs created strictly before
`now`, sort them ascending by `created_at` (stably), and yield the ones whose
thread exists and that are not locked, acquiring a cancellation handle and
incrementing each yielded run's retry counter before the yield.  Returns the
yields, the updated document and the final control map. -/
def Runs.next (S : Store) (control : List (String × Signal)) (now : Int) :
    List (Run × Int × Signal) × Store × List (String × Signal) :=
  let pendingRuns := sortByTime ((S.runs.map Prod.snd).filter
    (fun run => run.status == .pending && run.created_at < now))
  let step := nextLoop S.threads pendingRuns S.retry_counter control
  (step.1, { S with retry_counter := step.2.1 }, step.2.2)

/-! ## Renderings of specification sentences for comparison

These definitions follow the wording of the specification (not the source)
and exist only to be compared against the embedded source behaviour. -/

/-- Lexicographic code-point order on strings (the order of `<` on JS
strings, used to state the tie-break the specification asserts). -/
def strLtAux : List Char → List Char → Bool
  | [], [] => false
  | [], _ :: _ => true
  | _ :: _, [] => false
  | a :: as, b :: bs =>
    if a.val < b.val then true else if b.val < a.val then false else strLtAux as bs

def strLt (a b : String) : Bool := strLtAux a.data b.data

/-- The picker ordering asserted by the specification: ascending `created_at`
with ties broken by `run_id`. -/
def specPickLe (a b : Run) : Bool :=
  a.created_at < b.created_at || (a.created_at == b.created_at && strLt a.run_id b.run_id)

def specInsertPick (r : Run) : List Run → List Run
  | [] => [r]
  | x :: xs => if specPickLe x r then x :: specInsertPick r xs else r :: x :: xs

def specSortPick (l : List Run) : List Run :=
  l.foldl (fun acc r => specInsertPick r acc) []

/-- The run ids claim C1 asserts the picker yields: every run with
`status = pending` and `created_at ≤ now` that is not locked, ascending by
`created_at` with ties broken by `run_id`. -/
def specPickIds (S : Store) (locks : List String) (now : Int) : List String :=
  (specSortPick ((S.runs.map Prod.snd).filter (fun run =>
    run.status == .pending && run.created_at ≤ now && !(locks.contains run.run_id)))).map
    (fun run => run.run_id)

/- The deep merge claim C5 asserts for configurables: later layers override
earlier ones, merging recursively at keys where both layers hold objects. -/
mutual
def deepMergeValue : JsonValue → JsonValue → JsonValue
  | .obj a, .obj b => .obj (deepMergeObj a b)
  | _, b => b

def deepMergeObj : JsObj → JsObj → JsObj
  | a, [] => a
  | a, (k, v) :: rest =>
    let a2 := match alookup a k with
      | some old => aset a k (deepMergeValue old v)
      | none => a ++ [(k, v)]
    deepMergeObj a2 rest
end

/-- The offset/limit semantics claim C9 asserts for `Runs.search`: skip the
first `offset` matches and return at most `limit` of the rest. -/
def specSlice (l : List α) (offset limit : Nat) : List α :=
  (l.drop offset).take limit

/-- The condition under which `Runs.put` resolves a thread rather than
taking the reject path: the named thread exists, or no thread id was given,
or `ifNotExists` is `create`. -/
def threadResolves (S : Store) (options : RunsPutOptions) : Prop :=
  (∃ tid, options.threadId = some tid ∧ ∃ t ∈ S.threads.map Prod.snd, t.thread_id = tid) ∨
  options.threadId = none ∨ options.ifNotExists.getD .reject = .create

/-- The inflight runs of a thread: its stored runs with status `pending`. -/
def pendingRunsOf (S : Store) (tid : String) : List Run :=
  (S.runs.map Prod.snd).filter (fun run => run.thread_id == tid && run.status == .pending)

/-! ## Concrete instances used in counterexamples and witnesses -/

def exThread : Thread :=
  { thread_id := "t", created_at := 0, updated_at := 0, status := .idle }

def exRun (rid : String) (t : Int) : Run :=
  { run_id := rid, thread_id := "t", assistant_id := "as1", created_at := t,
    updated_at := 0, status := .pending }

/-- Store exercising the picker: two pending runs tied at time 1 stored in
descending `run_id` order, a pending run whose thread is missing, and a
pending run created exactly at the picker's `now`. -/
def pickStore : Store :=
  { runs := [("b", exRun "b" 1), ("a", exRun "a" 1),
      ("d", { exRun "d" 2 with thread_id := "missing" }), ("c", exRun "c" 5)],
    threads := [("t", exThread)] }

def exAssistant : Assistant :=
  { assistant_id := "as1", graph_id := "g", created_at := 0, updated_at := 0, version := 1,
    config := [("configurable", .obj [("a", .obj [("x", .num 1)])])] }

/-- Store exercising the configurable merge: an assistant whose configurable
holds a nested object, and a busy thread. -/
def cfgStore : Store :=
  { assistants := [("as1", exAssistant)],
    threads := [("t", { exThread with status := .busy })] }

def cfgKwargs : RunKwargs :=
  { config := some [("configurable", .obj [("a", .obj [("y", .num 2)])])] }

def cfgResult : Except Err (List Run × Store) :=
  Runs.put cfgStore "r1" "as1" cfgKwargs { threadId := some "t" } 100 "fresh"

/-- The value at key `a` of the configurable actually stored by `Runs.put`. -/
def cfgActualA : Option JsonValue :=
  ((((cfgResult.toOption.bind (fun p => p.1.head?)).bind
    (fun r => r.kwargs.config)).bind
    (fun c => getObjField c "configurable")).bind
    (fun c => alookup c "a"))

/-- The value at key `a` of the deep merge of the three configurable layers
(assistant, thread, user) of `cfgStore`/`cfgKwargs`. -/
def cfgDeepA : Option JsonValue :=
  alookup (deepMergeObj (deepMergeObj [("a", .obj [("x", .num 1)])] [])
    [("a", .obj [("y", .num 2)])]) "a"

/-- Store exercising `Runs.search`: one thread with two runs. -/
def searchStore : Store :=
  { runs := [("r1", exRun "r1" 1), ("r2", exRun "r2" 2)], threads := [("t", exThread)] }

/-- Store with a busy thread carrying one inflight pending run. -/
def inflightStore : Store := { cfgStore with runs := [("p1", exRun "p1" 0)] }

/-- A checkpoint payload with a non-empty `next` list and one task. -/
def cpPayload : CheckpointPayload :=
  { values := [("v", .num 7)], next := ["nodeA"],
    tasks := [{ id := "task1", interrupts := [("i", .num 1)] }] }

/-- Store with one thread and one pending run on it. -/
def statusStore : Store :=
  { threads := [("t", exThread)], runs := [("p1", exRun "p1" 0)] }

/-- Store exercising cancellation: a pending run and a finished run. -/
def cancelStore : Store :=
  { runs := [("p1", exRun "p1" 0), ("q1", { exRun "q1" 0 with status := .success })],
    threads := [("t", exThread)] }

/-- Options of the C4 witness call: a named thread with the inflight guard. -/
def w4opts : RunsPutOptions := { threadId := some "t", preventInsertInInflight := true }

/-- Result of the C4 witness call. -/
def w4res : List Run × Store :=
  (Runs.put inflightStore "r2" "as1" {} w4opts 100 "fr").toOption.getD ([], emptyStore)

/-- Options of the C5 witness call. -/
def w5opts : RunsPutOptions := { threadId := some "t" }

/-- Result of the C5 witness call. -/
def w5res : List Run × Store :=
  (Runs.put cfgStore "r1" "as1" cfgKwargs w5opts 100 "fresh").toOption.getD ([], emptyStore)

/-- The run `Runs.cancel` finds for a requested id: present and, when a
thread id was given, on that thread. -/
def cancelTarget (S : Store) (threadId : Option String) (runId : String) : Option Run :=
  match alookup S.runs runId with
  | none => none
  | some run =>
    match threadId with
    | some tid => if run.thread_id == tid then some run else none
    | none => some run

/-- Whether `Runs.cancel` eagerly deletes a requested run: found, pending, no
registered handle, and rollback action. -/
def cancelEagerDelete (S : Store) (controls : List String) (threadId : Option String)
    (action : CancelAction) (runId : String) : Bool :=
  match cancelTarget S threadId runId with
  | some run =>
    run.status == RunStatus.pending && !(controls.contains runId) &&
      (action == CancelAction.rollback)
  | none => false

/-- The assistant-store invariant of claim C7: every stored assistant agrees
with its key, has a version snapshot with the same assistant id and version,
and every recorded version is at least 1. -/
def AInv (S : Store) : Prop :=
  (∀ aid a, alookup S.assistants aid = some a →
    a.assistant_id = aid ∧
    ∃ av ∈ S.assistant_versions, av.assistant_id = aid ∧ av.version = a.version) ∧
  (∀ av ∈ S.assistant_versions, 1 ≤ av.version)

/-- Operations of the C7 witness: create assistant `a1`. -/
def w7ops : List AOp := [AOp.put "a1" { graph_id := "g" } 5]

/-- Result of the C7 witness patch call. -/
def w7res : Assistant × Store :=
  (Assistants.patch (applyAOps w7ops) "a1" {} 7).toOption.getD
    (⟨none, "", "", 0, 0, 0, [], []⟩, emptyStore)

/-! ## Helper lemmas about the object operations -/

theorem alookup_nil (k : String) : alookup ([] : List (String × α)) k = none := rfl

theorem alookup_cons (p : String × α) (l : List (String × α)) (k : String) :
    alookup (p :: l) k = if p.1 == k then some p.2 else alookup l k := by
  cases h : p.1 == k <;> simp [alookup, List.find?, h]

theorem alookup_append (l1 l2 : List (String × α)) (k : String) :
    alookup (l1 ++ l2) k = (alookup l1 k).or (alookup l2 k) := by
  induction l1 with
  | nil => simp [alookup_nil]
  | cons p rest ih =>
    rw [List.cons_append, alookup_cons, alookup_cons]
    cases h : p.1 == k <;> simp [h, ih]

theorem alookup_not_mem (l : List (String × α)) (k : String)
    (h : l.any (fun p => p.1 == k) = false) : alookup l k = none := by
  induction l with
  | nil => rfl
  | cons p rest ih =>
    simp only [List.any_cons, Bool.or_eq_false_iff] at h
    rw [alookup_cons, if_neg (ne_true_of_eq_false h.1)]
    exact ih h.2

theorem alookup_mapset_ne (l : List (String × α)) (k k2 : String) (v : α)
    (h : (k == k2) = false) :
    alookup (l.map (fun p => if p.1 == k then (k, v) else p)) k2 = alookup l k2 := by
  induction l with
  | nil => rfl
  | cons p rest ih =>
    rw [List.map_cons, alookup_cons, alookup_cons]
    cases hp : p.1 == k
    · rw [if_neg Bool.false_ne_true, ih]
    · rw [if_pos rfl]
      have h1 : p.1 = k := by simpa [beq_iff_eq] using hp
      have hp2 : (p.1 == k2) = false := by rw [h1]; exact h
      have hkv : (((k, v) : String × α).1 == k2) = false := h
      rw [if_neg (ne_true_of_eq_false hkv), if_neg (ne_true_of_eq_false hp2), ih]

theorem alookup_mapset_self (l : List (String × α)) (k : String) (v : α)
    (h : l.any (fun p => p.1 == k) = true) :
    alookup (l.map (fun p => if p.1 == k then (k, v) else p)) k = some v := by
  induction l with
  | nil => simp at h
  | cons p rest ih =>
    rw [List.map_cons, alookup_cons]
    cases hp : p.1 == k
    · simp only [List.any_cons, hp, Bool.false_or] at h
      rw [if_neg Bool.false_ne_true, if_neg (ne_true_of_eq_false hp)]
      exact ih h
    · rw [if_pos rfl]
      have hkv : (((k, v) : String × α).1 == k) = true := by simp
      rw [if_pos hkv]

theorem alookup_aset (l : List (String × α)) (k k2 : String) (v : α) :
    alookup (aset l k v) k2 = if k == k2 then some v else alookup l k2 := by
  unfold aset
  cases hany : l.any (fun p => p.1 == k)
  · rw [if_neg Bool.false_ne_true, alookup_append]
    cases hk : k == k2
    · have hkv : (((k, v) : String × α).1 == k2) = false := hk
      have hone : alookup [(k, v)] k2 = none := by
        rw [alookup_cons, if_neg (ne_true_of_eq_false hkv)]; rfl
      rw [hone, if_neg Bool.false_ne_true]
      simp
    · have h1 : k = k2 := by simpa [beq_iff_eq] using hk
      subst h1
      rw [alookup_not_mem l k hany, if_pos rfl]
      have hkv : (((k, v) : String × α).1 == k) = true := by simp
      rw [alookup_cons, if_pos hkv]
      simp
  · rw [if_pos rfl]
    cases hk : k == k2
    · rw [alookup_mapset_ne l k k2 v hk, if_neg Bool.false_ne_true]
    · have h1 : k = k2 := by simpa [beq_iff_eq] using hk
      subst h1
      rw [alookup_mapset_self l k v hany, if_pos rfl]

theorem alookup_assign (b s : List (String × α)) (k : String)
    (h : (s.map Prod.fst).Nodup) :
    alookup (assign b s) k = (alookup s k).or (alookup b k) := by
  induction s generalizing b with
  | nil => simp [assign, alookup_nil]
  | cons p rest ih =>
    simp only [List.map_cons, List.nodup_cons] at h
    have step : assign b (p :: rest) = assign (aset b p.1 p.2) rest := rfl
    rw [step, ih _ h.2, alookup_cons, alookup_aset]
    cases hk : p.1 == k
    · rw [if_neg Bool.false_ne_true, if_neg Bool.false_ne_true]
    · have h1 : p.1 = k := by simpa [beq_iff_eq] using hk
      have hrest : alookup rest k = none := by
        apply alookup_not_mem
        cases hr : rest.any (fun q => q.1 == k)
        · rfl
        · exfalso
          simp only [List.any_eq_true, beq_iff_eq] at hr
          rcases hr with ⟨q, hq, hqe⟩
          subst h1
          exact h.1 (by rw [← hqe]; exact List.mem_map_of_mem Prod.fst hq)
      rw [if_pos rfl, if_pos rfl, hrest]
      simp

/-! ## Queue lemmas -/

theorem queue_getSeq_all (l : List Message) : Queue.getSeq l l.length = l := by
  induction l with
  | nil => rfl
  | cons m rest ih => simp [Queue.getSeq, Queue.getReady, ih]

theorem queue_push_foldl (buffer ms : List Message) :
    ms.foldl Queue.push buffer = buffer ++ ms := by
  induction ms generalizing buffer with
  | nil => simp
  | cons m rest ih =>
    rw [List.foldl_cons, ih]
    simp [Queue.push]

/-- Claim C6: for a single subscriber of one queue, messages are returned by
`get` in the order they were pushed; a `get` that finds the buffer empty
registers one waiter and a timer of the requested duration, and is then
resolved by the first event to fire: expiry of the timer fails the call with
`TimeoutError`, the cancel signal fails it with `AbortError`, an arriving
message is delivered, and in every case the registered waiter is removed. -/
theorem claim6_queue_order_and_errors :
    (∀ (buffer ms : List Message),
      Queue.getSeq (ms.foldl Queue.push buffer) (buffer.length + ms.length) = buffer ++ ms) ∧
    (∀ (timeoutMs : Int) (hasSignal : Bool),
      Queue.getStart [] timeoutMs hasSignal =
        .inr { timeoutMs := timeoutMs, hasAbortHook := hasSignal, waiterRegistered := true }) ∧
    (∀ buffer, Queue.pendingStep buffer .timerFired = (.failedTimeout, buffer, false)) ∧
    (∀ buffer, Queue.pendingStep buffer .aborted = (.failedAborted, buffer, false)) ∧
    (∀ m, Queue.pendingStep [] (.arrival m) = (.delivered m, [], false)) := by
  refine ⟨?_, fun _ _ => rfl, fun _ => rfl, fun _ => rfl, fun _ => rfl⟩
  intro buffer ms
  rw [queue_push_foldl]
  have h := queue_getSeq_all (buffer ++ ms)
  simpa using h

/-! ## Lemmas about the interrupts projection -/

theorem interrupts_fold_not_mem (tasks : List CheckpointTask) (acc : JsObj) (x : String)
    (hx : ∀ t ∈ tasks, t.id ≠ x) :
    alookup (tasks.foldl (fun a task => aset a task.id (.obj task.interrupts)) acc) x =
      alookup acc x := by
  induction tasks generalizing acc with
  | nil => rfl
  | cons t rest ih =>
    rw [List.foldl_cons, ih _ (fun q hq => hx q (List.mem_cons_of_mem _ hq)), alookup_aset]
    rw [if_neg (by
      simp only [beq_iff_eq]
      exact fun hc => hx t (List.mem_cons_self t rest) hc)]

theorem interrupts_fold_mem (tasks : List CheckpointTask) (acc : JsObj)
    (hnd : (tasks.map (fun task => task.id)).Nodup) :
    ∀ task ∈ tasks,
      alookup (tasks.foldl (fun a task => aset a task.id (.obj task.interrupts)) acc) task.id =
        some (.obj task.interrupts) := by
  induction tasks generalizing acc with
  | nil => intro _ h; cases h
  | cons t rest ih =>
    simp only [List.map_cons, List.nodup_cons] at hnd
    intro task htask
    rcases List.mem_cons.mp htask with h1 | h2
    · subst h1
      rw [List.foldl_cons]
      rw [interrupts_fold_not_mem rest _ task.id (fun q hq hqe => by
        exact hnd.1 (by rw [← hqe]; exact List.mem_map_of_mem _ hq))]
      rw [alookup_aset, if_pos (by simp)]
    · rw [List.foldl_cons]
      exact ih _ hnd.2 task h2

/-- Claim C2: `Threads.setStatus` derives the thread status (error if an
exception is given, else interrupted if the checkpoint has a non-empty `next`,
else busy if some run on the thread is pending, else idle), sets `values` from
the checkpoint or clears it, sets `interrupts` to the task-id-indexed mapping
of task interrupts, and advances `updated_at`. -/
theorem claim2_thread_setStatus (S : Store) (threadId : String)
    (checkpoint : Option CheckpointPayload) (exception : Option String) (now : Int)
    (thread : Thread) (hthread : alookup S.threads threadId = some thread) :
    ∃ S2 t2, Threads.setStatus S threadId checkpoint exception now = .ok S2 ∧
      alookup S2.threads threadId = some t2 ∧
      (exception.isSome = true → t2.status = .error) ∧
      (exception = none → (∃ cp, checkpoint = some cp ∧ cp.next ≠ []) →
        t2.status = .interrupted) ∧
      (exception = none → (∀ cp, checkpoint = some cp → cp.next = []) →
        (∃ r ∈ S.runs.map Prod.snd, r.thread_id = threadId ∧ r.status = .pending) →
        t2.status = .busy) ∧
      (exception = none → (∀ cp, checkpoint = some cp → cp.next = []) →
        (¬ ∃ r ∈ S.runs.map Prod.snd, r.thread_id = threadId ∧ r.status = .pending) →
        t2.status = .idle) ∧
      t2.values = checkpoint.map (fun cp => cp.values) ∧
      t2.interrupts = checkpoint.map (fun cp => interruptsFromTasks cp.tasks) ∧
      (∀ cp, checkpoint = some cp → (cp.tasks.map (fun task => task.id)).Nodup →
        ∀ task ∈ cp.tasks, ∃ ints, t2.interrupts = some ints ∧
          alookup ints task.id = some (.obj task.interrupts)) ∧
      t2.updated_at = now := by
  have hpend : ((S.runs.map Prod.snd).any
      (fun run => run.thread_id == threadId && run.status == .pending)) = true ↔
      (∃ r ∈ S.runs.map Prod.snd, r.thread_id = threadId ∧ r.status = .pending) := by
    rw [List.any_eq_true]
    constructor
    · rintro ⟨r, hr, hb⟩
      rw [Bool.and_eq_true, beq_iff_eq, beq_iff_eq] at hb
      exact ⟨r, hr, hb⟩
    · rintro ⟨r, hr, h1, h2⟩
      exact ⟨r, hr, by rw [Bool.and_eq_true, beq_iff_eq, beq_iff_eq]; exact ⟨h1, h2⟩⟩
  simp only [Threads.setStatus, hthread]
  refine ⟨_, { thread with
    updated_at := now
    status :=
      if exception.isSome = true then ThreadStatus.error
      else if (match checkpoint with
        | some cp => decide (0 < cp.next.length)
        | none => false) = true then ThreadStatus.interrupted
      else if ((List.map Prod.snd S.runs).any fun run =>
        run.thread_id == threadId && run.status == RunStatus.pending) = true then
        ThreadStatus.busy
      else ThreadStatus.idle
    values := checkpoint.map (fun cp => cp.values)
    interrupts := checkpoint.map (fun cp => interruptsFromTasks cp.tasks) },
    rfl, ?_, ?_, ?_, ?_, ?_, ?_, ?_, ?_, ?_⟩
  · rw [alookup_aset, if_pos (by simp)]
  · intro hexc
    simp [hexc]
  · rintro hexc ⟨cp, hcp, hne⟩
    subst hcp
    simp [hexc, List.length_pos.mpr hne]
  · intro hexc hnonext hp
    cases hcp : checkpoint with
    | none => simp [hexc, hcp, hpend.mpr hp]
    | some cp => simp [hexc, hcp, hnonext cp hcp, hpend.mpr hp]
  · intro hexc hnonext hnp
    have hpf : ((S.runs.map Prod.snd).any
        (fun run => run.thread_id == threadId && run.status == .pending)) = false := by
      cases hq : (S.runs.map Prod.snd).any
          (fun run => run.thread_id == threadId && run.status == .pending)
      · rfl
      · exact absurd (hpend.mp hq) hnp
    cases hcp : checkpoint with
    | none => simp [hexc, hcp, hpf]
    | some cp => simp [hexc, hcp, hnonext cp hcp, hpf]
  · rfl
  · rfl
  · rintro cp rfl hnd task htask
    exact ⟨interruptsFromTasks cp.tasks, rfl, interrupts_fold_mem cp.tasks [] hnd task htask⟩
  · rfl

/-- Witness for claim C2 at a concrete store: a thread with a pending run and
a checkpoint with a non-empty `next` list. -/
theorem claim2_witness :
    alookup statusStore.threads "t" = some exThread ∧
    (∃ S2 t2, Threads.setStatus statusStore "t" (some cpPayload) none 9 = .ok S2 ∧
      alookup S2.threads "t" = some t2 ∧
      ((none : Option String).isSome = true → t2.status = .error) ∧
      ((none : Option String) = none →
        (∃ cp, (some cpPayload : Option CheckpointPayload) = some cp ∧ cp.next ≠ []) →
        t2.status = .interrupted) ∧
      ((none : Option String) = none →
        (∀ cp, (some cpPayload : Option CheckpointPayload) = some cp → cp.next = []) →
        (∃ r ∈ statusStore.runs.map Prod.snd, r.thread_id = "t" ∧ r.status = .pending) →
        t2.status = .busy) ∧
      ((none : Option String) = none →
        (∀ cp, (some cpPayload : Option CheckpointPayload) = some cp → cp.next = []) →
        (¬ ∃ r ∈ statusStore.runs.map Prod.snd, r.thread_id = "t" ∧ r.status = .pending) →
        t2.status = .idle) ∧
      t2.values = (some cpPayload).map (fun cp => cp.values) ∧
      t2.interrupts = (some cpPayload).map (fun cp => interruptsFromTasks cp.tasks) ∧
      (∀ cp, (some cpPayload : Option CheckpointPayload) = some cp →
        (cp.tasks.map (fun task => task.id)).Nodup →
        ∀ task ∈ cp.tasks, ∃ ints, t2.interrupts = some ints ∧
          alookup ints task.id = some (.obj task.interrupts)) ∧
      t2.updated_at = 9) :=
  ⟨rfl, claim2_thread_setStatus statusStore "t" (some cpPayload) none 9 exThread rfl⟩

/-- A successful `Threads.put` leaves the returned thread stored at its id. -/
theorem threads_put_ok (S : Store) (threadId : String) (options : Option ThreadsPutOptions)
    (now : Int) (r1 : Thread) (S1 : Store)
    (h : Threads.put S threadId options now = .ok (r1, S1)) :
    alookup S1.threads threadId = some r1 := by
  unfold Threads.put at h
  split at h
  next existing hl =>
    split at h
    · cases h
    · simp only [Except.ok.injEq, Prod.mk.injEq] at h
      obtain ⟨hr, hs⟩ := h
      subst hr
      subst hs
      exact hl
  next hl =>
    simp only [Except.ok.injEq, Prod.mk.injEq] at h
    obtain ⟨hr, hs⟩ := h
    subst hr
    subst hs
    simp [alookup_aset]

/-- A successful `Assistants.put` leaves the returned assistant stored at its
id. -/
theorem assistants_put_ok (S : Store) (assistantId : String)
    (options : AssistantsPutOptions) (now : Int) (r1 : Assistant) (S1 : Store)
    (h : Assistants.put S assistantId options now = .ok (r1, S1)) :
    alookup S1.assistants assistantId = some r1 := by
  unfold Assistants.put at h
  split at h
  next existing hl =>
    split at h
    · cases h
    · simp only [Except.ok.injEq, Prod.mk.injEq] at h
      obtain ⟨hr, hs⟩ := h
      subst hr
      subst hs
      exact hl
  next hl =>
    simp only [Except.ok.injEq, Prod.mk.injEq] at h
    obtain ⟨hr, hs⟩ := h
    subst hr
    subst hs
    simp [alookup_aset]

/-- Claim C8: a second `put` of the same id with `if_exists = do_nothing`
returns the record produced by the first call unmodified and leaves the store
unchanged, for threads and for assistants alike. -/
theorem claim8_idempotent_put :
    (∀ (S : Store) (threadId : String) (options : Option ThreadsPutOptions) (now : Int)
      (r1 : Thread) (S1 : Store) (options2 : ThreadsPutOptions) (now2 : Int),
      Threads.put S threadId options now = .ok (r1, S1) →
      options2.if_exists = .do_nothing →
      Threads.put S1 threadId (some options2) now2 = .ok (r1, S1)) ∧
    (∀ (S : Store) (assistantId : String) (options : AssistantsPutOptions) (now : Int)
      (r1 : Assistant) (S1 : Store) (options2 : AssistantsPutOptions) (now2 : Int),
      Assistants.put S assistantId options now = .ok (r1, S1) →
      options2.if_exists = .do_nothing →
      Assistants.put S1 assistantId options2 now2 = .ok (r1, S1)) := by
  constructor
  · intro S threadId options now r1 S1 options2 now2 h1 h2
    have hl := threads_put_ok S threadId options now r1 S1 h1
    unfold Threads.put
    rw [hl]
    simp [h2]
  · intro S assistantId options now r1 S1 options2 now2 h1 h2
    have hl := assistants_put_ok S assistantId options now r1 S1 h1
    unfold Assistants.put
    rw [hl]
    simp [h2]

/-- The thread built by the first put of the C8 witness. -/
def w8thread : Thread :=
  { thread_id := "tw", created_at := 5, updated_at := 5, metadata := [], status := .idle,
    config := some [], values := none }

def w8store : Store := { threads := [("tw", w8thread)] }

/-- Witness for claim C8: create a thread in the empty store, then put it
again with `do_nothing`. -/
theorem claim8_witness :
    Threads.put emptyStore "tw" none 5 = .ok (w8thread, w8store) ∧
    ({ if_exists := .do_nothing : ThreadsPutOptions }).if_exists = .do_nothing ∧
    Threads.put w8store "tw" (some { if_exists := .do_nothing }) 6 = .ok (w8thread, w8store) :=
  ⟨rfl, rfl, claim8_idempotent_put.1 emptyStore "tw" none 5 w8thread w8store
    { if_exists := .do_nothing } 6 rfl rfl⟩

/-- Claim C9 failing input: `Runs.search` slices with the limit as an end
index.  With two matching runs, `offset = 1` and `limit = 1` the source
returns nothing, while the claimed semantics (skip `offset` matches, return at
most `limit` of the rest) returns the second run.  Every sibling search in the
module slices with `offset + limit` as the end index. -/
theorem claim9_search_slice_bug :
    Runs.search searchStore "t" (some 1) (some 1) none none = [] ∧
    (searchStore.runs.map Prod.snd).filter (fun run => run.thread_id == "t") =
      [exRun "r1" 1, exRun "r2" 2] ∧
    specSlice [exRun "r1" 1, exRun "r2" 2] 1 1 = [exRun "r2" 2] :=
  ⟨rfl, rfl, rfl⟩

/-- Counterexample to claim C10 as stated: when the assistant id is unknown, a
`Runs.put` call whose `threadId` names a missing thread under the default
`ifNotExists = reject` raises 404 instead of returning the empty list. -/
theorem claim10_counterexample :
    Runs.put emptyStore "r" "as1" {} { threadId := some "t" } 0 "g" =
      .error (.http 404 ("No assistant found for \"as1\". Make sure the assistant ID is for a valid assistant or a valid graph ID.")) :=
  rfl

/-- Claim C10 (amended): when the assistant exists, `options.threadId` names a
thread not present in the store and `ifNotExists` is `reject` (the default),
`Runs.put` returns the empty list without raising and leaves the store
unchanged. -/
theorem claim10_reject_missing_thread (S : Store) (runId : String) (assistantId : String)
    (kwargs : RunKwargs) (options : RunsPutOptions) (now : Int) (fresh : String)
    (a : Assistant) (tid : String)
    (hassistant : alookup S.assistants assistantId = some a)
    (htid : options.threadId = some tid)
    (hmissing : ∀ t ∈ S.threads.map Prod.snd, t.thread_id ≠ tid)
    (hreject : options.ifNotExists.getD .reject = .reject) :
    Runs.put S runId assistantId kwargs options now fresh = .ok ([], S) := by
  have hfind : (S.threads.map Prod.snd).find? (fun t =>
      match some tid with
      | some tid2 => t.thread_id == tid2
      | none => false) = none := by
    apply List.find?_eq_none.mpr
    intro t ht
    simp only [beq_iff_eq]
    exact hmissing t ht
  have hrt : resolveThread S a assistantId kwargs options now fresh = none := by
    simp only [resolveThread, existingThreadOf, htid, hreject, hfind]
    simp
  simp only [Runs.put, hassistant, hrt]

/-- Witness for claim C10 at a concrete store with an assistant and no thread
named `nope`. -/
theorem claim10_witness :
    alookup cfgStore.assistants "as1" = some exAssistant ∧
    (∀ t ∈ cfgStore.threads.map Prod.snd, t.thread_id ≠ "nope") ∧
    Runs.put cfgStore "r" "as1" {} { threadId := some "nope" } 0 "g" = .ok ([], cfgStore) :=
  ⟨rfl, by decide, claim10_reject_missing_thread cfgStore "r" "as1" {}
    { threadId := some "nope" } 0 "g" exAssistant "nope" rfl rfl (by decide) rfl⟩

/-- Under `threadResolves`, the resolution phase of `Runs.put` does not take
the reject path. -/
theorem resolveThread_ne_none (S : Store) (assistant : Assistant) (assistantId : String)
    (kwargs : RunKwargs) (options : RunsPutOptions) (now : Int) (fresh : String)
    (hresolve : threadResolves S options) :
    resolveThread S assistant assistantId kwargs options now fresh ≠ none := by
  unfold resolveThread
  intro hnone
  rcases hfind : existingThreadOf S options with _ | t1
  · rw [hfind] at hnone
    rcases hresolve with ⟨tid, htid, t0, ht0, hmatch⟩ | htid | hcreate
    · have hnp := List.find?_eq_none.mp hfind t0 ht0
      rw [htid] at hnp
      simp [hmatch] at hnp

    · simp [htid] at hnone
    · simp [hcreate] at hnone
  · rw [hfind] at hnone
    by_cases hst : t1.status = .busy
    · simp [hst] at hnone
    · simp [hst] at hnone

/-- Claim C4: when `preventInsertInInflight` is set and the resolved thread
has inflight pending runs, `Runs.put` inserts nothing and returns exactly the
inflight runs unchanged; otherwise it stores a new run with
`created_at = now + afterSeconds` seconds and returns it in front of the
inflight runs. -/
theorem claim4_put_inflight_guard (S : Store) (runId : String) (assistantId : String)
    (kwargs : RunKwargs) (options : RunsPutOptions) (now : Int) (fresh : String)
    (rs : List Run) (S2 : Store)
    (hres : Runs.put S runId assistantId kwargs options now fresh = .ok (rs, S2))
    (hresolve : threadResolves S options) :
    (options.preventInsertInInflight = true →
      pendingRunsOf S (options.threadId.getD fresh) ≠ [] →
      rs = pendingRunsOf S (options.threadId.getD fresh) ∧ S2.runs = S.runs) ∧
    ((options.preventInsertInInflight = false ∨
        pendingRunsOf S (options.threadId.getD fresh) = []) →
      ∃ newRun, rs = newRun :: pendingRunsOf S (options.threadId.getD fresh) ∧
        newRun.run_id = runId ∧
        newRun.created_at = now + options.afterSeconds.getD 0 * 1000 ∧
        S2.runs = aset S.runs runId newRun ∧
        alookup S2.runs runId = some newRun) := by
  rcases halo : alookup S.assistants assistantId with _ | a
  · exfalso
    simp only [Runs.put, halo] at hres
    exact Except.noConfusion hres
  · rcases hrt : resolveThread S a assistantId kwargs options now fresh with _ | ⟨threadNow, threads2⟩
    · exact absurd hrt
        (resolveThread_ne_none S a assistantId kwargs options now fresh hresolve)
    · simp only [Runs.put, halo, hrt] at hres
      by_cases hguard : options.preventInsertInInflight = true ∧
          0 < ((S.runs.map Prod.snd).filter (fun run =>
            run.thread_id == options.threadId.getD fresh &&
            run.status == RunStatus.pending)).length
      · rw [if_pos hguard] at hres
        simp only [Except.ok.injEq, Prod.mk.injEq] at hres
        obtain ⟨hrs, hS2⟩ := hres
        subst hS2
        constructor
        · intro _ _
          exact ⟨hrs.symm, rfl⟩
        · intro hcase
          rcases hcase with hf | he
          · rw [hf] at hguard
            exact absurd hguard.1 (by simp)
          · exfalso
            have h2 := hguard.2
            rw [show ((S.runs.map Prod.snd).filter (fun run =>
              run.thread_id == options.threadId.getD fresh &&
              run.status == RunStatus.pending)) =
              pendingRunsOf S (options.threadId.getD fresh) from rfl, he] at h2
            simp at h2
      · rw [if_neg hguard] at hres
        simp only [Except.ok.injEq, Prod.mk.injEq] at hres
        obtain ⟨hrs, hS2⟩ := hres
        subst hS2
        constructor
        · intro hp hne
          exfalso
          apply hguard
          refine ⟨hp, ?_⟩
          rcases hq : pendingRunsOf S (options.threadId.getD fresh) with _ | ⟨x, xs⟩
          · exact absurd hq hne
          · rw [show ((S.runs.map Prod.snd).filter (fun run =>
              run.thread_id == options.threadId.getD fresh &&
              run.status == RunStatus.pending)) =
              pendingRunsOf S (options.threadId.getD fresh) from rfl, hq]
            simp
        · intro _
          refine ⟨buildNewRun a assistantId runId kwargs options now
            (options.threadId.getD fresh) threadNow, hrs.symm, rfl, rfl, rfl, ?_⟩
          show alookup (aset S.runs runId (buildNewRun a assistantId runId kwargs options
            now (options.threadId.getD fresh) threadNow)) runId =
            some (buildNewRun a assistantId runId kwargs options now
              (options.threadId.getD fresh) threadNow)
          rw [alookup_aset, if_pos (by simp)]

/-- Witness for claim C4: with the inflight guard set and one pending run on
the thread, the call returns exactly that run and inserts nothing. -/
theorem claim4_witness :
    Runs.put inflightStore "r2" "as1" {} w4opts 100 "fr" = .ok (w4res.1, w4res.2) ∧
    threadResolves inflightStore w4opts ∧
    ((w4opts.preventInsertInInflight = true →
      pendingRunsOf inflightStore (w4opts.threadId.getD "fr") ≠ [] →
      w4res.1 = pendingRunsOf inflightStore (w4opts.threadId.getD "fr") ∧
        w4res.2.runs = inflightStore.runs) ∧
     ((w4opts.preventInsertInInflight = false ∨
        pendingRunsOf inflightStore (w4opts.threadId.getD "fr") = []) →
      ∃ newRun, w4res.1 = newRun :: pendingRunsOf inflightStore (w4opts.threadId.getD "fr") ∧
        newRun.run_id = "r2" ∧
        newRun.created_at = 100 + w4opts.afterSeconds.getD 0 * 1000 ∧
        w4res.2.runs = aset inflightStore.runs "r2" newRun ∧
        alookup w4res.2.runs "r2" = some newRun)) :=
  ⟨rfl,
   Or.inl ⟨"t", rfl, { exThread with status := .busy },
     by simp [inflightStore, cfgStore], rfl⟩,
   claim4_put_inflight_guard inflightStore "r2" "as1" {} w4opts 100 "fr" w4res.1 w4res.2
     rfl
     (Or.inl ⟨"t", rfl, { exThread with status := .busy },
       by simp [inflightStore, cfgStore], rfl⟩)⟩

theorem alookup_assignOpt (b : List (String × α)) (s : Option (List (String × α)))
    (k : String) (h : ((s.getD []).map Prod.fst).Nodup) :
    alookup (assignOpt b s) k = (alookup (s.getD []) k).or (alookup b k) := by
  cases s with
  | none => simp [assignOpt, alookup_nil]
  | some l => exact alookup_assign b l k h

theorem alookup_synth_none (runId tid gid aid : String) (uid : JsonValue) (k : String)
    (h1 : k ≠ "run_id") (h2 : k ≠ "thread_id") (h3 : k ≠ "graph_id")
    (h4 : k ≠ "assistant_id") (h5 : k ≠ "user_id") :
    alookup [("run_id", JsonValue.str runId), ("thread_id", JsonValue.str tid),
      ("graph_id", JsonValue.str gid), ("assistant_id", JsonValue.str aid),
      ("user_id", uid)] k = none := by
  rw [alookup_cons, if_neg (by simp only [beq_iff_eq]; exact fun hh => h1 hh.symm)]
  rw [alookup_cons, if_neg (by simp only [beq_iff_eq]; exact fun hh => h2 hh.symm)]
  rw [alookup_cons, if_neg (by simp only [beq_iff_eq]; exact fun hh => h3 hh.symm)]
  rw [alookup_cons, if_neg (by simp only [beq_iff_eq]; exact fun hh => h4 hh.symm)]
  rw [alookup_cons, if_neg (by simp only [beq_iff_eq]; exact fun hh => h5 hh.symm)]
  rfl

/-- When every stored thread matching the requested id is busy, the resolution
phase leaves the thread table untouched or creates a fresh thread, and the
thread object later reads observe is exactly the one the lookup found. -/
theorem resolveThread_busy (S : Store) (a : Assistant) (assistantId : String)
    (kwargs : RunKwargs) (options : RunsPutOptions) (now : Int) (fresh : String)
    (hresolve : threadResolves S options)
    (hbusy : ∀ t ∈ S.threads.map Prod.snd, options.threadId = some t.thread_id →
      t.status = .busy) :
    ∃ threads2, resolveThread S a assistantId kwargs options now fresh =
      some (existingThreadOf S options, threads2) := by
  rcases hfind : existingThreadOf S options with _ | t
  · have hcond : options.threadId = none ∨
        options.ifNotExists.getD IfNotExists.reject = IfNotExists.create := by
      rcases hresolve with ⟨tid, htid, t0, ht0, hmatch⟩ | htid | hcreate
      · exfalso
        have hnp := List.find?_eq_none.mp hfind t0 ht0
        rw [htid] at hnp
        simp [hmatch] at hnp
      · exact Or.inl htid
      · exact Or.inr hcreate
    exact ⟨_, by simp only [resolveThread, hfind]; rw [if_pos hcond]⟩
  · have hmem := List.mem_of_find?_eq_some hfind
    have hpred := List.find?_some hfind
    have htid : options.threadId = some t.thread_id := by
      rcases hti : options.threadId with _ | tid
      · rw [hti] at hpred
        simp at hpred
      · rw [hti] at hpred
        simp only [beq_iff_eq] at hpred
        rw [hpred]
    have hst : t.status = .busy := hbusy t hmem htid
    refine ⟨S.threads, ?_⟩
    simp only [resolveThread, hfind]
    rw [if_pos hst]

/-- Counterexample to claim C5 as stated: the configurable stored by
`Runs.put` merges layers with `Object.assign`, which replaces nested objects
wholesale; the deep merge the claim asserts would combine their keys. -/
theorem claim5_counterexample :
    cfgActualA = some (.obj [("y", .num 2)]) ∧
    cfgDeepA = some (.obj [("x", .num 1), ("y", .num 2)]) ∧
    cfgActualA ≠ cfgDeepA := by
  refine ⟨rfl, rfl, ?_⟩
  intro h
  rw [show cfgActualA = some (.obj [("y", .num 2)]) from rfl,
      show cfgDeepA = some (.obj [("x", .num 1), ("y", .num 2)]) from rfl] at h
  simp at h

theorem aset_keys (l : List (String × α)) (k : String) (v : α)
    (h : (l.map Prod.fst).Nodup) : ((aset l k v).map Prod.fst).Nodup := by
  unfold aset
  cases hany : l.any (fun p => p.1 == k)
  · rw [if_neg Bool.false_ne_true, List.map_append]
    refine List.Nodup.append h (List.nodup_singleton k) ?_
    intro x hx hx2
    simp only [List.map_cons, List.map_nil, List.mem_singleton] at hx2
    obtain ⟨p, hp, hpk⟩ := List.mem_map.mp hx
    have hq : l.any (fun p => p.1 == k) = true :=
      List.any_eq_true.mpr ⟨p, hp, by rw [hpk, hx2]; simp⟩
    rw [hany] at hq
    exact Bool.noConfusion hq
  · rw [if_pos rfl]
    have hmk : (l.map (fun p => if p.1 == k then (k, v) else p)).map Prod.fst =
        l.map Prod.fst := by
      rw [List.map_map]
      refine List.map_congr_left ?_
      intro p hp
      show Prod.fst (if (p.1 == k) = true then (k, v) else p) = p.1
      cases hpk : p.1 == k
      · rw [if_neg Bool.false_ne_true]
      · rw [if_pos rfl]
        exact (beq_iff_eq.mp hpk).symm
    rw [hmk]
    exact h

theorem assign_keys (s : List (String × α)) :
    ∀ (b : List (String × α)), (b.map Prod.fst).Nodup →
      ((assign b s).map Prod.fst).Nodup := by
  induction s with
  | nil =>
    intro b h
    exact h
  | cons p rest ih =>
    intro b h
    exact ih (aset b p.1 p.2) (aset_keys b p.1 p.2 h)

theorem assignOpt_keys (b : List (String × α)) (s : Option (List (String × α)))
    (h : (b.map Prod.fst).Nodup) : ((assignOpt b s).map Prod.fst).Nodup := by
  cases s with
  | none => exact h
  | some l => exact assign_keys l b h

/-- `Option.or` layering absorbs a repetition of its outer layers: merging the
user layer over an inner merge of the same layers equals the single merge. -/
theorem option_or_absorb (u t a : Option α) :
    u.or ((u.or (t.or a)).or a) = u.or (t.or a) := by
  cases u <;> cases t <;> cases a <;> rfl

theorem getObjField_aset_obj (c : JsObj) (k : String) (o : JsObj) :
    getObjField (aset c k (JsonValue.obj o)) k = some o := by
  unfold getObjField
  rw [alookup_aset, if_pos (by simp)]

/-- Claim C5 (amended): the configurable stored in a new run's `kwargs.config`
is the `Object.assign`-style shallow merge of the assistant's, the stored
thread's and the user-supplied configurables — later layers replacing earlier
values wholesale, including at nested keys — extended with the synthesized
`run_id`, `thread_id`, `graph_id`, `assistant_id` and `user_id` keys, where
`user_id` is the first non-nullish `user_id` of the user configurable, the
resolved thread's configurable (the stored one for a busy thread, the merged
one when an idle thread is marked busy, absent for a fresh thread) and the
assistant configurable, then `options.userId`. -/
theorem claim5_configurable_shallow (S : Store) (runId : String) (assistantId : String)
    (kwargs : RunKwargs) (options : RunsPutOptions) (now : Int) (fresh : String)
    (rs : List Run) (S2 : Store) (a : Assistant)
    (halo : alookup S.assistants assistantId = some a)
    (hres : Runs.put S runId assistantId kwargs options now fresh = .ok (rs, S2))
    (hresolve : threadResolves S options)
    (hnoprev : options.preventInsertInInflight = false ∨
      pendingRunsOf S (options.threadId.getD fresh) = [])
    (hN1 : ((configurableOf a.config).map Prod.fst).Nodup)
    (hN2 : (((((existingThreadOf S options).bind (fun t => t.config)).bind
      (fun c => getObjField c "configurable")).getD []).map Prod.fst).Nodup)
    (hN3 : ((configurableOf (kwargs.config.getD [])).map Prod.fst).Nodup) :
    ∃ run threadNow threads2 cfgbl,
      resolveThread S a assistantId kwargs options now fresh =
        some (threadNow, threads2) ∧
      rs.head? = some run ∧ run.run_id = runId ∧
      run.kwargs.config = some (builtRunConfig a assistantId runId kwargs options
        (options.threadId.getD fresh) threadNow) ∧
      alookup (builtRunConfig a assistantId runId kwargs options
        (options.threadId.getD fresh) threadNow) "configurable" =
        some (.obj cfgbl) ∧
      alookup cfgbl "run_id" = some (.str runId) ∧
      alookup cfgbl "thread_id" = some (.str (options.threadId.getD fresh)) ∧
      alookup cfgbl "graph_id" = some (.str a.graph_id) ∧
      alookup cfgbl "assistant_id" = some (.str assistantId) ∧
      alookup cfgbl "user_id" = some (runUserId (kwargs.config.getD [])
        (threadNow.bind (fun t => t.config)) a.config options.userId) ∧
      (∀ k, k ≠ "run_id" → k ≠ "thread_id" → k ≠ "graph_id" → k ≠ "assistant_id" →
        k ≠ "user_id" →
        alookup cfgbl k =
          (alookup (configurableOf (kwargs.config.getD [])) k).or
            ((alookup ((((existingThreadOf S options).bind (fun t => t.config)).bind
              (fun c => getObjField c "configurable")).getD []) k).or
              (alookup (configurableOf a.config) k))) := by
  rcases hrt : resolveThread S a assistantId kwargs options now fresh
    with _ | ⟨threadNow, threads2⟩
  · exact absurd hrt
      (resolveThread_ne_none S a assistantId kwargs options now fresh hresolve)
  have hthread : (((((threadNow.bind (fun t => t.config)).bind
        (fun c => getObjField c "configurable")).getD []).map Prod.fst).Nodup) ∧
      ∀ k2, (alookup ((getObjField (kwargs.config.getD []) "configurable").getD []) k2).or
        ((alookup (((threadNow.bind (fun t => t.config)).bind
          (fun c => getObjField c "configurable")).getD []) k2).or
          (alookup ((getObjField a.config "configurable").getD []) k2)) =
      (alookup ((getObjField (kwargs.config.getD []) "configurable").getD []) k2).or
        ((alookup ((((existingThreadOf S options).bind (fun t => t.config)).bind
          (fun c => getObjField c "configurable")).getD []) k2).or
          (alookup ((getObjField a.config "configurable").getD []) k2)) := by
    rcases hfind : existingThreadOf S options with _ | t
    · simp only [resolveThread, hfind] at hrt
      by_cases hcond : options.threadId = none ∨
          options.ifNotExists.getD IfNotExists.reject = IfNotExists.create
      · rw [if_pos hcond] at hrt
        simp only [Option.some.injEq, Prod.mk.injEq] at hrt
        obtain ⟨h1, h2⟩ := hrt
        subst h1
        exact ⟨List.nodup_nil, fun k2 => rfl⟩
      · rw [if_neg hcond] at hrt
        exact Option.noConfusion hrt
    · simp only [resolveThread, hfind] at hrt
      by_cases hst : t.status = ThreadStatus.busy
      · rw [if_pos hst] at hrt
        simp only [Option.some.injEq, Prod.mk.injEq] at hrt
        obtain ⟨h1, h2⟩ := hrt
        subst h1
        rw [hfind] at hN2
        exact ⟨hN2, fun k2 => rfl⟩
      · rw [if_neg hst] at hrt
        simp only [Option.some.injEq, Prod.mk.injEq] at hrt
        obtain ⟨h1, h2⟩ := hrt
        subst h1
        rw [hfind] at hN2
        have hN2t : (((t.config.bind (fun c => getObjField c "configurable")).getD
            []).map Prod.fst).Nodup := hN2
        constructor
        · simp only [Option.some_bind, getObjField_aset_obj, Option.getD_some]
          exact assignOpt_keys _ _ (assignOpt_keys _ _ (assignOpt_keys _ _
            List.nodup_nil))
        · intro k2
          simp only [Option.some_bind, getObjField_aset_obj, Option.getD_some]
          rw [alookup_assignOpt _ _ _ hN3, alookup_assignOpt _ _ _ hN2t,
            alookup_assignOpt _ _ _ hN1, alookup_nil, Option.or_none]
          exact option_or_absorb _ _ _
  simp only [Runs.put, halo, hrt] at hres
  have hguard : ¬ (options.preventInsertInInflight = true ∧
      0 < ((S.runs.map Prod.snd).filter (fun run =>
        run.thread_id == options.threadId.getD fresh &&
        run.status == RunStatus.pending)).length) := by
    rintro ⟨hp, hlen⟩
    rcases hnoprev with hf | he
    · rw [hf] at hp
      cases hp
    · rw [show ((S.runs.map Prod.snd).filter (fun run =>
        run.thread_id == options.threadId.getD fresh &&
        run.status == RunStatus.pending)) = pendingRunsOf S (options.threadId.getD fresh)
        from rfl, he] at hlen
      simp at hlen
  rw [if_neg hguard] at hres
  simp only [Except.ok.injEq, Prod.mk.injEq] at hres
  obtain ⟨hrs, hS2⟩ := hres
  have hsyn : (([("run_id", JsonValue.str runId),
      ("thread_id", JsonValue.str (options.threadId.getD fresh)),
      ("graph_id", JsonValue.str a.graph_id),
      ("assistant_id", JsonValue.str assistantId),
      ("user_id", runUserId (kwargs.config.getD [])
        (threadNow.bind (fun t => t.config)) a.config
        options.userId)] : JsObj).map Prod.fst).Nodup := by
    simp
  refine ⟨buildNewRun a assistantId runId kwargs options now (options.threadId.getD fresh)
      threadNow, threadNow, threads2,
    builtConfigurable a assistantId runId kwargs options (options.threadId.getD fresh)
      threadNow,
    rfl, ?_, rfl, rfl, ?_, ?_, ?_, ?_, ?_, ?_, ?_⟩
  · rw [← hrs]
    rfl
  · unfold builtRunConfig
    rw [alookup_aset, if_neg (by simp), alookup_aset, if_pos (by simp)]
  · unfold builtConfigurable
    rw [alookup_assign _ _ _ hsyn]
    rfl
  · unfold builtConfigurable
    rw [alookup_assign _ _ _ hsyn]
    rfl
  · unfold builtConfigurable
    rw [alookup_assign _ _ _ hsyn]
    rfl
  · unfold builtConfigurable
    rw [alookup_assign _ _ _ hsyn]
    rfl
  · unfold builtConfigurable
    rw [alookup_assign _ _ _ hsyn]
    rfl
  · intro k h1 h2 h3 h4 h5
    simp only [configurableOf]
    unfold builtConfigurable
    rw [alookup_assign _ _ _ hsyn,
      alookup_synth_none runId (options.threadId.getD fresh) a.graph_id assistantId _ k
        h1 h2 h3 h4 h5,
      alookup_assignOpt _ _ _ hN3, alookup_assignOpt _ _ _ hthread.1,
      alookup_assignOpt _ _ _ hN1, alookup_nil, Option.or_none, Option.none_or]
    exact hthread.2 k

/-- Witness for claim C5 at the concrete store of the counterexample. -/
theorem claim5_witness :
    alookup cfgStore.assistants "as1" = some exAssistant ∧
    Runs.put cfgStore "r1" "as1" cfgKwargs w5opts 100 "fresh" = .ok (w5res.1, w5res.2) ∧
    threadResolves cfgStore w5opts ∧
    (w5opts.preventInsertInInflight = false ∨
      pendingRunsOf cfgStore (w5opts.threadId.getD "fresh") = []) ∧
    (∃ run threadNow threads2 cfgbl,
      resolveThread cfgStore exAssistant "as1" cfgKwargs w5opts 100 "fresh" =
        some (threadNow, threads2) ∧
      w5res.1.head? = some run ∧ run.run_id = "r1" ∧
      run.kwargs.config = some (builtRunConfig exAssistant "as1" "r1" cfgKwargs w5opts
        (w5opts.threadId.getD "fresh") threadNow) ∧
      alookup (builtRunConfig exAssistant "as1" "r1" cfgKwargs w5opts
        (w5opts.threadId.getD "fresh") threadNow) "configurable" =
        some (.obj cfgbl) ∧
      alookup cfgbl "run_id" = some (.str "r1") ∧
      alookup cfgbl "thread_id" = some (.str (w5opts.threadId.getD "fresh")) ∧
      alookup cfgbl "graph_id" = some (.str exAssistant.graph_id) ∧
      alookup cfgbl "assistant_id" = some (.str "as1") ∧
      alookup cfgbl "user_id" = some (runUserId (cfgKwargs.config.getD [])
        (threadNow.bind (fun t => t.config)) exAssistant.config w5opts.userId) ∧
      (∀ k, k ≠ "run_id" → k ≠ "thread_id" → k ≠ "graph_id" → k ≠ "assistant_id" →
        k ≠ "user_id" →
        alookup cfgbl k =
          (alookup (configurableOf (cfgKwargs.config.getD [])) k).or
            ((alookup ((((existingThreadOf cfgStore w5opts).bind (fun t => t.config)).bind
              (fun c => getObjField c "configurable")).getD []) k).or
              (alookup (configurableOf exAssistant.config) k)))) :=
  ⟨rfl, rfl,
   Or.inl ⟨"t", rfl, { exThread with status := .busy }, by simp [cfgStore], rfl⟩,
   Or.inl rfl,
   claim5_configurable_shallow cfgStore "r1" "as1" cfgKwargs w5opts 100 "fresh"
     w5res.1 w5res.2 exAssistant rfl rfl
     (Or.inl ⟨"t", rfl, { exThread with status := .busy }, by simp [cfgStore], rfl⟩)
     (Or.inl rfl) (by decide) (by decide) (by decide)⟩

theorem alookup_adelete (l : List (String × α)) (k x : String) :
    alookup (adelete l k) x = if k == x then none else alookup l x := by
  unfold adelete
  induction l with
  | nil => cases hk : k == x <;> simp [alookup_nil]
  | cons p rest ih =>
    cases hpk : p.1 != k
    · have hp1 : p.1 = k := by simpa [bne] using hpk
      rw [List.filter_cons_of_neg (by simp [hpk]), ih]
      cases hk : k == x
      · have hpx : (p.1 == x) = false := by rw [hp1]; exact hk
        rw [alookup_cons, if_neg (ne_true_of_eq_false hpx)]
      · rfl
    · have hp1k : p.1 ≠ k := by simpa [bne, beq_iff_eq] using hpk
      rw [List.filter_cons_of_pos (by simp [hpk]), alookup_cons, ih, alookup_cons]
      cases hk : k == x
      · rw [if_neg Bool.false_ne_true, if_neg Bool.false_ne_true]
      · have hkx : k = x := by simpa [beq_iff_eq] using hk
        have hpx : (p.1 == x) = false := by
          cases hq : p.1 == x
          · rfl
          · exact absurd (by rw [(by simpa [beq_iff_eq] using hq : p.1 = x), ← hkx]) hp1k
        rw [if_pos rfl, if_pos rfl, if_neg (ne_true_of_eq_false hpx)]

theorem cancelTarget_aset_ne (S : Store) (threadId : Option String) (rid0 rid : String)
    (v : Run) (h : rid ≠ rid0) :
    cancelTarget { S with runs := aset S.runs rid0 v } threadId rid =
      cancelTarget S threadId rid := by
  unfold cancelTarget
  rw [show ({ S with runs := aset S.runs rid0 v } : Store).runs = aset S.runs rid0 v from rfl]
  rw [alookup_aset, if_neg (by simp only [beq_iff_eq]; exact fun hh => h hh.symm)]

theorem cancelEagerDelete_aset_ne (S : Store) (controls : List String)
    (threadId : Option String) (action : CancelAction) (rid0 rid : String) (v : Run)
    (h : rid ≠ rid0) :
    cancelEagerDelete { S with runs := aset S.runs rid0 v } controls threadId action rid =
      cancelEagerDelete S controls threadId action rid := by
  unfold cancelEagerDelete
  rw [cancelTarget_aset_ne S threadId rid0 rid v h]


theorem runs_with (S : Store) (l : List (String × Run)) :
    ({ S with runs := l } : Store).runs = l := rfl

theorem cancelLoop_spec (controls : List String) (threadId : Option String)
    (action : CancelAction) (now : Int) :
    ∀ (l : List String) (S : Store) (found : Nat)
      (fired : List (String × CancelAction)) (dels : List String), l.Nodup →
      (cancelLoop controls threadId action now l S found fired dels).2.1 =
        found + l.countP (fun rid => (cancelTarget S threadId rid).isSome) ∧
      (cancelLoop controls threadId action now l S found fired dels).2.2.1 =
        fired ++ (l.filter (fun rid =>
          (cancelTarget S threadId rid).isSome && controls.contains rid)).map
          (fun rid => (rid, action)) ∧
      (cancelLoop controls threadId action now l S found fired dels).2.2.2 =
        dels ++ l.filter (cancelEagerDelete S controls threadId action) ∧
      (∀ x, x ∉ l →
        alookup (cancelLoop controls threadId action now l S found fired dels).1.runs x =
          alookup S.runs x) ∧
      (∀ rid ∈ l,
        alookup (cancelLoop controls threadId action now l S found fired dels).1.runs rid =
          (match cancelTarget S threadId rid with
          | some run =>
            if run.status = RunStatus.pending ∧
                (controls.contains rid = true ∨ action ≠ CancelAction.rollback)
            then some { run with status := RunStatus.interrupted, updated_at := now }
            else alookup S.runs rid
          | none => alookup S.runs rid)) ∧
      (cancelLoop controls threadId action now l S found fired dels).1.threads =
        S.threads := by
  intro l
  induction l with
  | nil =>
    intro S found fired dels _
    exact ⟨by simp [cancelLoop], by simp [cancelLoop], by simp [cancelLoop],
      fun x _ => rfl, fun rid h => absurd h (List.not_mem_nil rid), rfl⟩
  | cons rid0 rest ih =>
    intro S found fired dels hnd
    rw [List.nodup_cons] at hnd
    obtain ⟨hni, hndr⟩ := hnd
    rcases halo : alookup S.runs rid0 with _ | run
    · -- run not present: skipped
      have htgt : cancelTarget S threadId rid0 = none := by
        simp only [cancelTarget, halo]
      obtain ⟨ihf, ihfr, ihd, ihx, ihm, ihth⟩ := ih S found fired dels hndr
      simp only [cancelLoop, halo]
      refine ⟨?_, ?_, ?_, ?_, ?_, ihth⟩
      · rw [List.countP_cons_of_neg _ _ (by simp [htgt])]
        exact ihf
      · rw [List.filter_cons_of_neg (by simp [htgt])]
        exact ihfr
      · rw [List.filter_cons_of_neg (by simp [cancelEagerDelete, htgt])]
        exact ihd
      · intro x hx
        exact ihx x (fun hm => hx (List.mem_cons_of_mem _ hm))
      · intro rid hrid
        rcases List.mem_cons.mp hrid with h1 | h2
        · subst h1
          simp only [htgt]
          exact ihx rid hni
        · exact ihm rid h2
    · cases hmis : (match threadId with
        | some tid => run.thread_id != tid
        | none => false)
      · -- thread matches: the run is cancelled
        have htgt : cancelTarget S threadId rid0 = some run := by
          rcases threadId with _ | tid
          · simp only [cancelTarget, halo]
          · have hm2 : (run.thread_id != tid) = false := hmis
            have hq : (run.thread_id == tid) = true := by
              cases hq0 : run.thread_id == tid
              · simp [bne, hq0] at hm2
              · rfl
            simp only [cancelTarget, halo]
            rw [if_pos hq]
        cases hctl : controls.contains rid0
        · have hmem : rid0 ∉ controls := by simpa using hctl
          by_cases hst : run.status = RunStatus.pending
          · by_cases hact : action = CancelAction.rollback
            · -- pending, no handle, rollback action: eager delete
              simp only [cancelLoop, halo]
              rw [if_neg (ne_true_of_eq_false hmis),
                if_neg (ne_true_of_eq_false hctl), if_pos hst,
                if_neg (by
                  rintro (hc | hnr)
                  · exact Bool.false_ne_true (hctl ▸ hc)
                  · exact hnr hact)]
              obtain ⟨ihf, ihfr, ihd, ihx, ihm, ihth⟩ :=
                ih S (found + 1) fired (dels ++ [rid0]) hndr
              refine ⟨?_, ?_, ?_, ?_, ?_, ihth⟩
              · rw [List.countP_cons_of_pos _ _ (by simp [htgt]), ihf]
                omega
              · rw [List.filter_cons_of_neg (by simp [htgt, hmem])]
                exact ihfr
              · rw [List.filter_cons_of_pos (by
                  simp [cancelEagerDelete, htgt, hmem, hst, hact]),
                  ihd, List.append_assoc]
                rfl
              · intro x hx
                exact ihx x (fun hm => hx (List.mem_cons_of_mem _ hm))
              · intro rid hrid
                rcases List.mem_cons.mp hrid with h1 | h2
                · subst h1
                  simp only [htgt]
                  rw [if_neg (by
                    rintro ⟨_, (hc | hnr)⟩
                    · exact Bool.false_ne_true (hctl ▸ hc)
                    · exact hnr hact)]
                  exact ihx rid hni
                · exact ihm rid h2
            · -- pending, no handle, interrupt action: mark interrupted
              simp only [cancelLoop, halo]
              rw [if_neg (ne_true_of_eq_false hmis),
                if_neg (ne_true_of_eq_false hctl), if_pos hst,
                if_pos (Or.inr hact)]
              obtain ⟨ihf, ihfr, ihd, ihx, ihm, ihth⟩ :=
                ih { S with runs := aset S.runs rid0 { run with status := RunStatus.interrupted, updated_at := now } } (found + 1) fired dels hndr
              have htr : ∀ rid ∈ rest,
                  cancelTarget { S with runs := aset S.runs rid0 { run with status := RunStatus.interrupted, updated_at := now } } threadId rid = cancelTarget S threadId rid := by
                intro rid hr
                exact cancelTarget_aset_ne S threadId rid0 rid _
                  (fun he => hni (he ▸ hr))
              have hlr : ∀ rid, rid ≠ rid0 →
                  alookup (aset S.runs rid0
                    { run with status := RunStatus.interrupted, updated_at := now }) rid =
                  alookup S.runs rid := by
                intro rid hne
                rw [alookup_aset, if_neg (by
                  simp only [beq_iff_eq]
                  exact fun hh => hne hh.symm)]
              refine ⟨?_, ?_, ?_, ?_, ?_, ihth⟩
              · rw [List.countP_cons_of_pos _ _ (by simp [htgt]), ihf,
                  List.countP_congr (fun x hx => by rw [htr x hx])]
                omega
              · rw [List.filter_cons_of_neg (by simp [htgt, hmem]), ihfr,
                  List.filter_congr (fun x hx => by rw [htr x hx])]
              · rw [ihd, List.filter_cons_of_neg (by
                  simp [cancelEagerDelete, htgt, hmem, hst, hact]),
                  List.filter_congr (fun x hx =>
                    cancelEagerDelete_aset_ne S controls threadId action rid0 x _
                      (fun he => hni (he ▸ hx)))]
              · intro x hx
                rw [ihx x (fun hm => hx (List.mem_cons_of_mem _ hm))]
                exact hlr x (fun he => hx (he ▸ List.mem_cons_self rid0 rest))
              · intro rid hrid
                rcases List.mem_cons.mp hrid with h1 | h2
                · subst h1
                  simp only [htgt]
                  rw [if_pos ⟨hst, Or.inr hact⟩, ihx rid hni, runs_with]
                  rw [alookup_aset, if_pos (by simp)]
                · rw [ihm rid h2, htr rid h2, runs_with,
                    hlr rid (fun he => hni (he ▸ h2))]
          · -- found but not pending: only counted
            simp only [cancelLoop, halo]
            rw [if_neg (ne_true_of_eq_false hmis),
              if_neg (ne_true_of_eq_false hctl), if_neg hst]
            obtain ⟨ihf, ihfr, ihd, ihx, ihm, ihth⟩ := ih S (found + 1) fired dels hndr
            refine ⟨?_, ?_, ?_, ?_, ?_, ihth⟩
            · rw [List.countP_cons_of_pos _ _ (by simp [htgt]), ihf]
              omega
            · rw [List.filter_cons_of_neg (by simp [htgt, hmem])]
              exact ihfr
            · rw [List.filter_cons_of_neg (by simp [cancelEagerDelete, htgt, hst])]
              exact ihd
            · intro x hx
              exact ihx x (fun hm => hx (List.mem_cons_of_mem _ hm))
            · intro rid hrid
              rcases List.mem_cons.mp hrid with h1 | h2
              · subst h1
                simp only [htgt]
                rw [if_neg (by rintro ⟨hp, _⟩; exact hst hp)]
                exact ihx rid hni
              · exact ihm rid h2
        · -- a registered handle fires
          have hmem : rid0 ∈ controls := by simpa using hctl
          by_cases hst : run.status = RunStatus.pending
          · -- pending with handle: mark interrupted, control fired
            simp only [cancelLoop, halo]
            rw [if_neg (ne_true_of_eq_false hmis), if_pos hctl, if_pos hst,
              if_pos (Or.inl hctl)]
            obtain ⟨ihf, ihfr, ihd, ihx, ihm, ihth⟩ :=
              ih { S with runs := aset S.runs rid0 { run with status := RunStatus.interrupted, updated_at := now } } (found + 1) (fired ++ [(rid0, action)]) dels hndr
            have htr : ∀ rid ∈ rest,
                cancelTarget { S with runs := aset S.runs rid0 { run with status := RunStatus.interrupted, updated_at := now } } threadId rid = cancelTarget S threadId rid := by
              intro rid hr
              exact cancelTarget_aset_ne S threadId rid0 rid _
                (fun he => hni (he ▸ hr))
            have hlr : ∀ rid, rid ≠ rid0 →
                alookup (aset S.runs rid0
                  { run with status := RunStatus.interrupted, updated_at := now }) rid =
                alookup S.runs rid := by
              intro rid hne
              rw [alookup_aset, if_neg (by
                simp only [beq_iff_eq]
                exact fun hh => hne hh.symm)]
            refine ⟨?_, ?_, ?_, ?_, ?_, ihth⟩
            · rw [List.countP_cons_of_pos _ _ (by simp [htgt]), ihf,
                List.countP_congr (fun x hx => by rw [htr x hx])]
              omega
            · rw [List.filter_cons_of_pos (by simp [htgt, hmem]), ihfr,
                List.filter_congr (fun x hx => by rw [htr x hx]),
                List.map_cons, List.append_assoc]
              rfl
            · rw [ihd, List.filter_cons_of_neg (by
                simp [cancelEagerDelete, htgt, hmem]),
                List.filter_congr (fun x hx =>
                  cancelEagerDelete_aset_ne S controls threadId action rid0 x _
                    (fun he => hni (he ▸ hx)))]
            · intro x hx
              rw [ihx x (fun hm => hx (List.mem_cons_of_mem _ hm))]
              exact hlr x (fun he => hx (he ▸ List.mem_cons_self rid0 rest))
            · intro rid hrid
              rcases List.mem_cons.mp hrid with h1 | h2
              · subst h1
                simp only [htgt]
                rw [if_pos ⟨hst, Or.inl hctl⟩, ihx rid hni, runs_with]
                rw [alookup_aset, if_pos (by simp)]
              · rw [ihm rid h2, htr rid h2, runs_with,
                  hlr rid (fun he => hni (he ▸ h2))]
          · -- handle fired on a non-pending run: only counted
            simp only [cancelLoop, halo]
            rw [if_neg (ne_true_of_eq_false hmis), if_pos hctl, if_neg hst]
            obtain ⟨ihf, ihfr, ihd, ihx, ihm, ihth⟩ :=
              ih S (found + 1) (fired ++ [(rid0, action)]) dels hndr
            refine ⟨?_, ?_, ?_, ?_, ?_, ihth⟩
            · rw [List.countP_cons_of_pos _ _ (by simp [htgt]), ihf]
              omega
            · rw [List.filter_cons_of_pos (by simp [htgt, hmem]), ihfr,
                List.map_cons, List.append_assoc]
              rfl
            · rw [List.filter_cons_of_neg (by simp [cancelEagerDelete, htgt, hst])]
              exact ihd
            · intro x hx
              exact ihx x (fun hm => hx (List.mem_cons_of_mem _ hm))
            · intro rid hrid
              rcases List.mem_cons.mp hrid with h1 | h2
              · subst h1
                simp only [htgt]
                rw [if_neg (by rintro ⟨hp, _⟩; exact hst hp)]
                exact ihx rid hni
              · exact ihm rid h2
      · -- thread mismatch: skipped
        have htgt : cancelTarget S threadId rid0 = none := by
          rcases threadId with _ | tid
          · exact absurd hmis (by simp)
          · have hm2 : (run.thread_id != tid) = true := hmis
            have hq : (run.thread_id == tid) = false := by
              cases hq0 : run.thread_id == tid
              · rfl
              · simp [bne, hq0] at hm2
            simp only [cancelTarget, halo]
            rw [if_neg (ne_true_of_eq_false hq)]
        obtain ⟨ihf, ihfr, ihd, ihx, ihm, ihth⟩ := ih S found fired dels hndr
        simp only [cancelLoop, halo]
        rw [if_pos hmis]
        refine ⟨?_, ?_, ?_, ?_, ?_, ihth⟩
        · rw [List.countP_cons_of_neg _ _ (by simp [htgt])]
          exact ihf
        · rw [List.filter_cons_of_neg (by simp [htgt])]
          exact ihfr
        · rw [List.filter_cons_of_neg (by simp [cancelEagerDelete, htgt])]
          exact ihd
        · intro x hx
          exact ihx x (fun hm => hx (List.mem_cons_of_mem _ hm))
        · intro rid hrid
          rcases List.mem_cons.mp hrid with h1 | h2
          · subst h1
            simp only [htgt]
            exact ihx rid hni
          · exact ihm rid h2

theorem cancelTarget_props (S : Store) (threadId : Option String) (rid : String) (run : Run)
    (h : cancelTarget S threadId rid = some run) :
    alookup S.runs rid = some run ∧
      (∀ tid, threadId = some tid → (run.thread_id == tid) = true) := by
  unfold cancelTarget at h
  rcases halo : alookup S.runs rid with _ | r
  · simp only [halo] at h
    exact Option.noConfusion h
  · simp only [halo] at h
    rcases threadId with _ | tid
    · have h2 : some r = some run := h
      cases h2
      exact ⟨rfl, fun tid htid => Option.noConfusion htid⟩
    · have h2 : (if (r.thread_id == tid) = true then some r else none) = some run := h
      by_cases hq : (r.thread_id == tid) = true
      · rw [if_pos hq] at h2
        cases h2
        exact ⟨rfl, fun tid2 htid => by cases htid; exact hq⟩
      · rw [if_neg hq] at h2
        exact absurd h2 (by simp)

theorem cancelEagerDelete_props (S : Store) (controls : List String)
    (threadId : Option String) (action : CancelAction) (rid : String)
    (h : cancelEagerDelete S controls threadId action rid = true) :
    ∃ run, cancelTarget S threadId rid = some run ∧ run.status = RunStatus.pending ∧
      controls.contains rid = false ∧ action = CancelAction.rollback := by
  unfold cancelEagerDelete at h
  rcases htc : cancelTarget S threadId rid with _ | run
  · simp only [htc] at h
    exact Bool.noConfusion h
  · simp only [htc] at h
    rw [Bool.and_eq_true, Bool.and_eq_true] at h
    obtain ⟨⟨h1, h2⟩, h3⟩ := h
    refine ⟨run, rfl, by rwa [beq_iff_eq] at h1, ?_, by rwa [beq_iff_eq] at h3⟩
    cases hcc : controls.contains rid
    · rfl
    · rw [hcc] at h2
      exact absurd h2 (by simp)

theorem runs_delete_ok (S : Store) (rid : String) (threadId : Option String) (run : Run)
    (h : alookup S.runs rid = some run)
    (hm : ∀ tid, threadId = some tid → (run.thread_id == tid) = true) :
    Runs.delete S rid threadId = .ok (run.run_id, { S with runs := adelete S.runs rid }) := by
  rcases threadId with _ | tid
  · simp only [Runs.delete, h]
  · have hq : (run.thread_id == tid) = true := hm tid rfl
    have hb : (run.thread_id != tid) = false := by simp [bne, hq]
    simp only [Runs.delete, h]
    rw [if_neg (ne_true_of_eq_false hb)]

theorem applyDeletes_spec (threadId : Option String) :
    ∀ (dels : List String) (S : Store), dels.Nodup →
      (∀ rid ∈ dels, ∃ run, alookup S.runs rid = some run ∧
        (∀ tid, threadId = some tid → (run.thread_id == tid) = true)) →
      (applyDeletes threadId S dels).2 = false ∧
      (∀ x, alookup (applyDeletes threadId S dels).1.runs x =
        if x ∈ dels then none else alookup S.runs x) ∧
      (applyDeletes threadId S dels).1.threads = S.threads := by
  intro dels
  induction dels with
  | nil =>
    intro S _ _
    exact ⟨rfl, fun x => by simp [applyDeletes], rfl⟩
  | cons d0 rest ih =>
    intro S hnd hpre
    rw [List.nodup_cons] at hnd
    obtain ⟨hni, hndr⟩ := hnd
    obtain ⟨run, hlook, hmatch⟩ := hpre d0 (List.mem_cons_self d0 rest)
    have hdel := runs_delete_ok S d0 threadId run hlook hmatch
    have hstep : applyDeletes threadId S (d0 :: rest) =
        applyDeletes threadId { S with runs := adelete S.runs d0 } rest := by
      simp only [applyDeletes, List.foldl_cons, hdel]
    obtain ⟨ihf, ihl, ihth⟩ := ih { S with runs := adelete S.runs d0 } hndr (by
      intro rid hr
      obtain ⟨r2, hl2, hm2⟩ := hpre rid (List.mem_cons_of_mem _ hr)
      refine ⟨r2, ?_, hm2⟩
      rw [runs_with, alookup_adelete,
        if_neg (by
          simp only [beq_iff_eq]
          exact fun he => hni (by rw [he]; exact hr))]
      exact hl2)
    refine ⟨by rw [hstep]; exact ihf, ?_, by rw [hstep, ihth]⟩
    intro x
    rw [hstep, ihl x]
    by_cases hx0 : x = d0
    · subst hx0
      rw [if_neg hni, if_pos (List.mem_cons_self x rest), runs_with, alookup_adelete,
        if_pos (by simp)]
    · by_cases hxr : x ∈ rest
      · rw [if_pos hxr, if_pos (List.mem_cons_of_mem _ hxr)]
      · rw [if_neg hxr,
          if_neg (by rw [List.mem_cons]; rintro (h | h); exacts [hx0 h, hxr h]),
          runs_with, alookup_adelete,
          if_neg (by simp only [beq_iff_eq]; exact fun he => hx0 he.symm)]

/-- C3: for every `Runs.cancel(threadId, runIds, {action})` call over distinct run
ids, each listed run found on the given thread has its registered cancellation
handle fired; a pending run is interrupted when a handle existed or the action is
not rollback, a pending run with no handle under rollback is deleted outright, a
non-pending run is left unchanged, runs not listed are untouched, threads are
untouched, and the call fails with 404 exactly when fewer runs were found than
requested. -/
theorem claim3_cancel (S : Store) (controls : List String) (threadId : Option String)
    (runIds : List String) (action? : Option CancelAction) (now : Int)
    (hnd : runIds.Nodup) :
    (Runs.cancel S controls threadId runIds action? now).fired =
      (runIds.filter (fun rid =>
        (cancelTarget S threadId rid).isSome && controls.contains rid)).map
        (fun rid => (rid, action?.getD CancelAction.interrupt)) ∧
    (∀ rid ∈ runIds,
      alookup (Runs.cancel S controls threadId runIds action? now).store.runs rid =
        (match cancelTarget S threadId rid with
        | some run =>
          if run.status = RunStatus.pending then
            if controls.contains rid = true ∨
                action?.getD CancelAction.interrupt ≠ CancelAction.rollback
            then some { run with status := RunStatus.interrupted, updated_at := now }
            else none
          else alookup S.runs rid
        | none => alookup S.runs rid)) ∧
    (∀ x, x ∉ runIds →
      alookup (Runs.cancel S controls threadId runIds action? now).store.runs x =
        alookup S.runs x) ∧
    (Runs.cancel S controls threadId runIds action? now).store.threads = S.threads ∧
    (Runs.cancel S controls threadId runIds action? now).result =
      (if runIds.countP (fun rid => (cancelTarget S threadId rid).isSome) <
          runIds.length
        then Except.error (Err.http 404 "Run not found")
        else Except.ok ()) := by
  obtain ⟨hf, hfr, hd, hx, hm, hth⟩ :=
    cancelLoop_spec controls threadId (action?.getD CancelAction.interrupt) now runIds
      S 0 [] [] hnd
  have hdels : (cancelLoop controls threadId (action?.getD CancelAction.interrupt) now
      runIds S 0 [] []).2.2.2 =
      runIds.filter (cancelEagerDelete S controls threadId
        (action?.getD CancelAction.interrupt)) := by
    rw [hd]
    exact List.nil_append _
  have hpre : ∀ rid ∈ runIds.filter (cancelEagerDelete S controls threadId
      (action?.getD CancelAction.interrupt)), ∃ run,
      alookup (cancelLoop controls threadId (action?.getD CancelAction.interrupt) now
        runIds S 0 [] []).1.runs rid = some run ∧
      (∀ tid, threadId = some tid → (run.thread_id == tid) = true) := by
    intro rid hr
    obtain ⟨hmemr, hced⟩ := List.mem_filter.mp hr
    obtain ⟨run, htc, hpend, hctlf, hrb⟩ :=
      cancelEagerDelete_props S controls threadId _ rid hced
    obtain ⟨hlook, hmatch⟩ := cancelTarget_props S threadId rid run htc
    refine ⟨run, ?_, hmatch⟩
    rw [hm rid hmemr]
    simp only [htc]
    rw [if_neg (by
      rintro ⟨_, (hc | hnr)⟩
      · exact Bool.false_ne_true (hctlf ▸ hc)
      · exact hnr hrb)]
    exact hlook
  obtain ⟨haf, hal, hath⟩ := applyDeletes_spec threadId
    (runIds.filter (cancelEagerDelete S controls threadId
      (action?.getD CancelAction.interrupt)))
    (cancelLoop controls threadId (action?.getD CancelAction.interrupt) now
      runIds S 0 [] []).1
    (List.Nodup.filter _ hnd) hpre
  have hCs : (Runs.cancel S controls threadId runIds action? now).store =
      (applyDeletes threadId
        (cancelLoop controls threadId (action?.getD CancelAction.interrupt) now
          runIds S 0 [] []).1
        (runIds.filter (cancelEagerDelete S controls threadId
          (action?.getD CancelAction.interrupt)))).1 := by
    simp only [Runs.cancel]
    rw [hdels, haf, if_neg Bool.false_ne_true]
    by_cases hq : ((cancelLoop controls threadId (action?.getD CancelAction.interrupt)
        now runIds S 0 [] []).2.1 == runIds.length) = true
    · rw [if_pos hq]
    · rw [if_neg hq]
  have hCf : (Runs.cancel S controls threadId runIds action? now).fired =
      (cancelLoop controls threadId (action?.getD CancelAction.interrupt) now
        runIds S 0 [] []).2.2.1 := by
    simp only [Runs.cancel]
    rw [hdels, haf, if_neg Bool.false_ne_true]
    by_cases hq : ((cancelLoop controls threadId (action?.getD CancelAction.interrupt)
        now runIds S 0 [] []).2.1 == runIds.length) = true
    · rw [if_pos hq]
    · rw [if_neg hq]
  have hle : runIds.countP (fun rid => (cancelTarget S threadId rid).isSome) ≤
      runIds.length := List.countP_le_length _
  have hCr : (Runs.cancel S controls threadId runIds action? now).result =
      (if runIds.countP (fun rid => (cancelTarget S threadId rid).isSome) <
          runIds.length
        then Except.error (Err.http 404 "Run not found")
        else Except.ok ()) := by
    simp only [Runs.cancel]
    rw [hdels, haf, if_neg Bool.false_ne_true]
    have hfound : (cancelLoop controls threadId (action?.getD CancelAction.interrupt)
        now runIds S 0 [] []).2.1 =
        runIds.countP (fun rid => (cancelTarget S threadId rid).isSome) := by
      rw [hf]
      exact Nat.zero_add _
    rw [hfound]
    by_cases hq : runIds.countP (fun rid => (cancelTarget S threadId rid).isSome) =
        runIds.length
    · rw [if_pos (beq_iff_eq.mpr hq), if_neg (by omega)]
    · rw [if_neg (fun hb => hq (beq_iff_eq.mp hb)), if_pos (by omega)]
  refine ⟨?_, ?_, ?_, ?_, hCr⟩
  · rw [hCf, hfr]
    exact List.nil_append _
  · intro rid hmemr
    rw [hCs, hal rid]
    rcases htc : cancelTarget S threadId rid with _ | run
    · have hced : cancelEagerDelete S controls threadId
          (action?.getD CancelAction.interrupt) rid = false := by
        unfold cancelEagerDelete
        rw [htc]
      rw [if_neg (fun hin => by
          have h2 := (List.mem_filter.mp hin).2
          rw [hced] at h2
          exact Bool.false_ne_true h2),
        hm rid hmemr]
      simp only [htc]
    · have hced_eq : cancelEagerDelete S controls threadId
          (action?.getD CancelAction.interrupt) rid =
          (run.status == RunStatus.pending && !(controls.contains rid) &&
            ((action?.getD CancelAction.interrupt) == CancelAction.rollback)) := by
        unfold cancelEagerDelete
        rw [htc]
      by_cases hpend : run.status = RunStatus.pending
      · by_cases hcnd : controls.contains rid = true ∨
            action?.getD CancelAction.interrupt ≠ CancelAction.rollback
        · have hced : cancelEagerDelete S controls threadId
              (action?.getD CancelAction.interrupt) rid = false := by
            rcases hcnd with hc | hnr
            · rw [hced_eq, hc]
              simp
            · rw [hced_eq]
              simp [hnr]
          rw [if_neg (fun hin => by
              have h2 := (List.mem_filter.mp hin).2
              rw [hced] at h2
              exact Bool.false_ne_true h2),
            hm rid hmemr]
          simp only [htc]
          rw [if_pos ⟨hpend, hcnd⟩, if_pos hpend, if_pos hcnd]
        · push_neg at hcnd
          obtain ⟨hc1, hrb⟩ := hcnd
          have hctlf : controls.contains rid = false := by
            cases hcc : controls.contains rid
            · rfl
            · exact absurd hcc hc1
          have hced : cancelEagerDelete S controls threadId
              (action?.getD CancelAction.interrupt) rid = true := by
            rw [hced_eq, hctlf, hpend, hrb]
            simp
          simp only [htc]
          rw [if_pos (List.mem_filter.mpr ⟨hmemr, hced⟩), if_pos hpend,
            if_neg (by rintro (hc | hnr); exacts [hc1 hc, hnr hrb])]
      · have hced : cancelEagerDelete S controls threadId
            (action?.getD CancelAction.interrupt) rid = false := by
          rw [hced_eq]
          simp [hpend]
        rw [if_neg (fun hin => by
            have h2 := (List.mem_filter.mp hin).2
            rw [hced] at h2
            exact Bool.false_ne_true h2),
          hm rid hmemr]
        simp only [htc]
        rw [if_neg (fun hh => hpend hh.1), if_neg hpend]
  · intro x hxm
    rw [hCs, hal x, if_neg (fun hin => hxm (List.mem_of_mem_filter hin)), hx x hxm]
  · rw [hCs, hath, hth]

/-- Witness for C3: cancelling the pending run `p1` (with a registered handle)
and the finished run `q1` on thread `t`. -/
theorem claim3_witness :
    (["p1", "q1"] : List String).Nodup ∧
    (Runs.cancel cancelStore ["p1"] (some "t") ["p1", "q1"] none 50).fired =
      ((["p1", "q1"] : List String).filter (fun rid =>
        (cancelTarget cancelStore (some "t") rid).isSome &&
          (["p1"] : List String).contains rid)).map
        (fun rid => (rid, (none : Option CancelAction).getD CancelAction.interrupt)) :=
  ⟨by decide,
    (claim3_cancel cancelStore ["p1"] (some "t") ["p1", "q1"] none 50 (by decide)).1⟩

theorem store_mk_assistants (r : List (String × Run)) (t : List (String × Thread))
    (a : List (String × Assistant)) (v : List AssistantVersion)
    (c : List (String × Int)) : (Store.mk r t a v c).assistants = a := rfl

theorem store_mk_versions (r : List (String × Run)) (t : List (String × Thread))
    (a : List (String × Assistant)) (v : List AssistantVersion)
    (c : List (String × Int)) : (Store.mk r t a v c).assistant_versions = v := rfl

theorem foldl_max_ge (l : List Int) :
    ∀ (a : Int), a ≤ l.foldl max a ∧ ∀ x ∈ l, x ≤ l.foldl max a := by
  induction l with
  | nil =>
    intro a
    exact ⟨le_refl a, fun x h => absurd h (List.not_mem_nil x)⟩
  | cons y ys ih =>
    intro a
    rw [List.foldl_cons]
    refine ⟨le_trans (le_max_left a y) (ih (max a y)).1, ?_⟩
    intro x hx
    rcases List.mem_cons.mp hx with h1 | h2
    · subst h1
      exact le_trans (le_max_right a x) (ih (max a x)).1
    · exact (ih (max a y)).2 x h2

theorem foldl_max_mem (l : List Int) :
    ∀ (a : Int), l.foldl max a = a ∨ l.foldl max a ∈ l := by
  induction l with
  | nil =>
    intro a
    exact Or.inl rfl
  | cons y ys ih =>
    intro a
    rw [List.foldl_cons]
    rcases ih (max a y) with h | h
    · rcases max_choice a y with hm | hm
      · exact Or.inl (by rw [h, hm])
      · exact Or.inr (by rw [h, hm]; exact List.mem_cons_self y ys)
    · exact Or.inr (List.mem_cons_of_mem y h)

/-- On a non-empty list of values above the sentinel, the JS `Math.max` spread
is the list maximum. -/
theorem jsMathMax_spec (l : List Int) (hne : l ≠ []) (hpos : ∀ x ∈ l, 1 ≤ x) :
    jsMathMax l ∈ l ∧ ∀ x ∈ l, x ≤ jsMathMax l := by
  unfold jsMathMax
  rcases foldl_max_mem l jsNegInfinity with h | h
  · rcases l with _ | ⟨y, ys⟩
    · exact absurd rfl hne
    · exfalso
      have hy := (foldl_max_ge (y :: ys) jsNegInfinity).2 y (List.mem_cons_self y ys)
      rw [h] at hy
      have h1 := hpos y (List.mem_cons_self y ys)
      have h2 : jsNegInfinity < 1 := by norm_num [jsNegInfinity]
      omega
  · exact ⟨h, (foldl_max_ge l jsNegInfinity).2⟩

/-- Characterization of a successful `Assistants.patch`. -/
theorem assistants_patch_ok (S : Store) (assistantId : String)
    (options : AssistantsPatchOptions) (now : Int) (a2 : Assistant) (S2 : Store)
    (hres : Assistants.patch S assistantId options now = .ok (a2, S2)) :
    (∃ a0, alookup S.assistants assistantId = some a0 ∧
      a2.assistant_id = a0.assistant_id) ∧
    a2.version = jsMathMax (((S.assistant_versions.filter
      (fun v => v.assistant_id == assistantId)).map (fun v => v.version))) + 1 ∧
    S2.assistants = aset S.assistants assistantId a2 ∧
    S2.assistant_versions = S.assistant_versions ++
      [{ assistant_id := assistantId, version := a2.version, graph_id := a2.graph_id,
         config := a2.config, name := a2.name, metadata := a2.metadata,
         created_at := now }] := by
  rcases halo : alookup S.assistants assistantId with _ | assistant
  · simp only [Assistants.patch, halo] at hres
    exact Except.noConfusion hres
  · simp only [Assistants.patch, halo, Except.ok.injEq, Prod.mk.injEq] at hres
    obtain ⟨hb, hs⟩ := hres
    subst hb
    subst hs
    exact ⟨⟨assistant, rfl, rfl⟩, rfl, rfl, rfl⟩

/-- Characterization of a successful `Assistants.setLatest`. -/
theorem assistants_setLatest_ok (S : Store) (assistantId : String) (version now : Int)
    (a2 : Assistant) (S2 : Store)
    (hres : Assistants.setLatest S assistantId version now = .ok (a2, S2)) :
    (∃ a0, alookup S.assistants assistantId = some a0 ∧
      a2.assistant_id = a0.assistant_id) ∧
    (∃ av ∈ S.assistant_versions, av.assistant_id = assistantId ∧
      av.version = a2.version) ∧
    S2.assistants = aset S.assistants assistantId a2 ∧
    S2.assistant_versions = S.assistant_versions := by
  rcases halo : alookup S.assistants assistantId with _ | assistant
  · simp only [Assistants.setLatest, halo] at hres
    exact Except.noConfusion hres
  · rcases hfind : S.assistant_versions.find?
        (fun v => v.assistant_id == assistantId && v.version == version) with _ | av
    · simp only [Assistants.setLatest, halo, hfind] at hres
      exact Except.noConfusion hres
    · simp only [Assistants.setLatest, halo, hfind, Except.ok.injEq,
        Prod.mk.injEq] at hres
      obtain ⟨hb, hs⟩ := hres
      subst hb
      subst hs
      have hpred := List.find?_some hfind
      rw [Bool.and_eq_true] at hpred
      exact ⟨⟨assistant, rfl, rfl⟩,
        ⟨av, List.mem_of_find?_eq_some hfind, beq_iff_eq.mp hpred.1, rfl⟩, rfl, rfl⟩

/-- Characterization of a successful `Assistants.delete`. -/
theorem assistants_delete_ok (S : Store) (assistantId : String) (ids : List String)
    (S2 : Store) (hres : Assistants.delete S assistantId = .ok (ids, S2)) :
    S2.assistants = adelete S.assistants assistantId ∧
    S2.assistant_versions =
      S.assistant_versions.filter (fun v => v.assistant_id != assistantId) := by
  rcases halo : alookup S.assistants assistantId with _ | assistant
  · simp only [Assistants.delete, halo] at hres
    exact Except.noConfusion hres
  · simp only [Assistants.delete, halo, Except.ok.injEq, Prod.mk.injEq] at hres
    obtain ⟨hids, hs⟩ := hres
    subst hs
    exact ⟨rfl, rfl⟩

/-- Characterization of `Assistants.put` on a fresh id. -/
theorem assistants_put_new (S : Store) (assistantId : String)
    (options : AssistantsPutOptions) (now : Int) (a2 : Assistant) (S2 : Store)
    (halo : alookup S.assistants assistantId = none)
    (hres : Assistants.put S assistantId options now = .ok (a2, S2)) :
    a2.assistant_id = assistantId ∧ a2.version = 1 ∧
    S2.assistants = aset S.assistants assistantId a2 ∧
    S2.assistant_versions = S.assistant_versions ++
      [{ assistant_id := assistantId, version := 1, graph_id := options.graph_id,
         config := options.config.getD [], metadata := options.metadata.getD [],
         created_at := now, name := some (jsStringOr options.name options.graph_id) }] := by
  simp only [Assistants.put, halo, Except.ok.injEq, Prod.mk.injEq] at hres
  obtain ⟨hb, hs⟩ := hres
  subst hb
  subst hs
  exact ⟨rfl, rfl, rfl, rfl⟩

/-- `Assistants.put` on an existing id leaves the document unchanged. -/
theorem applyAOp_put_existing (S : Store) (assistantId : String)
    (options : AssistantsPutOptions) (now : Int) (existing : Assistant)
    (halo : alookup S.assistants assistantId = some existing) :
    applyAOp S (.put assistantId options now) = S := by
  simp only [applyAOp, Assistants.put, halo]
  by_cases hex : options.if_exists = OnConflictBehavior.raise
  · rw [if_pos hex]
  · rw [if_neg hex]

/-- Every assistant-store operation preserves the C7 invariant. -/
theorem ainv_applyAOp (S : Store) (op : AOp) (h : AInv S) : AInv (applyAOp S op) := by
  obtain ⟨h1, h2⟩ := h
  cases op with
  | put assistantId options now =>
    rcases halo : alookup S.assistants assistantId with _ | existing
    · rcases hres : Assistants.put S assistantId options now with e | ⟨a2, S2⟩
      · simp only [applyAOp, hres]
        exact ⟨h1, h2⟩
      · simp only [applyAOp, hres]
        obtain ⟨hid, hver, hassist, hvers⟩ :=
          assistants_put_new S assistantId options now a2 S2 halo hres
        constructor
        · intro aid a hla
          rw [hassist, alookup_aset] at hla
          by_cases haid : (assistantId == aid) = true
          · rw [if_pos haid] at hla
            cases hla
            have haid2 := beq_iff_eq.mp haid
            refine ⟨by rw [hid]; exact haid2, ?_⟩
            refine ⟨_, by rw [hvers]; exact List.mem_append_right _ (List.mem_cons_self _ _), haid2, hver.symm⟩
          · rw [if_neg haid] at hla
            obtain ⟨hidA, av, hmem, hp1, hp2⟩ := h1 aid a hla
            exact ⟨hidA, av, by rw [hvers]; exact List.mem_append_left _ hmem, hp1, hp2⟩
        · intro av hmem
          rw [hvers] at hmem
          rcases List.mem_append.mp hmem with hm1 | hm2
          · exact h2 av hm1
          · rw [List.mem_singleton] at hm2
            subst hm2
            exact le_refl 1
    · rw [applyAOp_put_existing S assistantId options now existing halo]
      exact ⟨h1, h2⟩
  | patch assistantId options now =>
    rcases hres : Assistants.patch S assistantId options now with e | ⟨a2, S2⟩
    · simp only [applyAOp, hres]
      exact ⟨h1, h2⟩
    · simp only [applyAOp, hres]
      obtain ⟨⟨a0, hla0, hid0⟩, hver, hassist, hvers⟩ :=
        assistants_patch_ok S assistantId options now a2 S2 hres
      obtain ⟨hid00, av0, hmem0, hq1, hq2⟩ := h1 assistantId a0 hla0
      have hmemf : av0.version ∈ ((S.assistant_versions.filter
          (fun v => v.assistant_id == assistantId)).map (fun v => v.version)) :=
        List.mem_map.mpr ⟨av0, List.mem_filter.mpr ⟨hmem0, beq_iff_eq.mpr hq1⟩, rfl⟩
      have hone : (1 : Int) ≤ av0.version := h2 av0 hmem0
      have hub := (foldl_max_ge ((S.assistant_versions.filter
          (fun v => v.assistant_id == assistantId)).map (fun v => v.version))
        jsNegInfinity).2 av0.version hmemf
      have hver1 : 1 ≤ a2.version := by
        rw [hver]
        unfold jsMathMax
        linarith
      constructor
      · intro aid a hla
        rw [hassist, alookup_aset] at hla
        by_cases haid : (assistantId == aid) = true
        · rw [if_pos haid] at hla
          cases hla
          have haid2 := beq_iff_eq.mp haid
          refine ⟨by rw [hid0, hid00]; exact haid2, ?_⟩
          refine ⟨_, by rw [hvers]; exact List.mem_append_right _ (List.mem_cons_self _ _), haid2, rfl⟩
        · rw [if_neg haid] at hla
          obtain ⟨hidA, av, hmem, hp1, hp2⟩ := h1 aid a hla
          exact ⟨hidA, av, by rw [hvers]; exact List.mem_append_left _ hmem, hp1, hp2⟩
      · intro av hmem
        rw [hvers] at hmem
        rcases List.mem_append.mp hmem with hm1 | hm2
        · exact h2 av hm1
        · rw [List.mem_singleton] at hm2
          subst hm2
          exact hver1
  | setLatest assistantId version now =>
    rcases hres : Assistants.setLatest S assistantId version now with e | ⟨a2, S2⟩
    · simp only [applyAOp, hres]
      exact ⟨h1, h2⟩
    · simp only [applyAOp, hres]
      obtain ⟨⟨a0, hla0, hid0⟩, ⟨av0, hmem0, hv1, hv2⟩, hassist, hvers⟩ :=
        assistants_setLatest_ok S assistantId version now a2 S2 hres
      obtain ⟨hid00, hrest⟩ := h1 assistantId a0 hla0
      constructor
      · intro aid a hla
        rw [hassist, alookup_aset] at hla
        by_cases haid : (assistantId == aid) = true
        · rw [if_pos haid] at hla
          cases hla
          have haid2 := beq_iff_eq.mp haid
          refine ⟨by rw [hid0, hid00]; exact haid2, ?_⟩
          exact ⟨av0, by rw [hvers]; exact hmem0, by rw [hv1]; exact haid2, hv2⟩
        · rw [if_neg haid] at hla
          obtain ⟨hidA, av, hmem, hp1, hp2⟩ := h1 aid a hla
          exact ⟨hidA, av, by rw [hvers]; exact hmem, hp1, hp2⟩
      · intro av hmem
        rw [hvers] at hmem
        exact h2 av hmem
  | del assistantId =>
    rcases hres : Assistants.delete S assistantId with e | ⟨ids, S2⟩
    · simp only [applyAOp, hres]
      exact ⟨h1, h2⟩
    · simp only [applyAOp, hres]
      obtain ⟨hassist, hvers⟩ := assistants_delete_ok S assistantId ids S2 hres
      constructor
      · intro aid a hla
        rw [hassist, alookup_adelete] at hla
        by_cases haid : (assistantId == aid) = true
        · rw [if_pos haid] at hla
          exact Option.noConfusion hla
        · rw [if_neg haid] at hla
          obtain ⟨hidA, av, hmem, hp1, hp2⟩ := h1 aid a hla
          have hne : ¬ aid = assistantId := by
            intro he
            rw [he] at haid
            simp at haid
          refine ⟨hidA, av, ?_, hp1, hp2⟩
          rw [hvers]
          refine List.mem_filter.mpr ⟨hmem, ?_⟩
          rw [hp1]
          simpa [bne, beq_iff_eq] using hne
      · intro av hmem
        rw [hvers] at hmem
        exact h2 av (List.mem_of_mem_filter hmem)

/-- The invariant holds for every operation sequence from the empty document. -/
theorem ainv_applyAOps (ops : List AOp) : AInv (applyAOps ops) := by
  have hgen : ∀ (l : List AOp) (S : Store), AInv S → AInv (l.foldl applyAOp S) := by
    intro l
    induction l with
    | nil =>
      intro S h
      exact h
    | cons op rest ih =>
      intro S h
      rw [List.foldl_cons]
      exact ih (applyAOp S op) (ainv_applyAOp S op h)
  refine hgen ops emptyStore ⟨?_, ?_⟩
  · intro aid a hla
    exact Option.noConfusion hla
  · intro av hmem
    exact absurd hmem (List.not_mem_nil av)

/-- C7: after every sequence of assistant-store operations from the empty
document, every stored assistant with version v has a version snapshot with the
same assistant id and version v; and a successful patch bumps the live
assistant to one plus the maximum recorded version for that assistant, appends
the matching snapshot and stores the bumped assistant. -/
theorem claim7_assistant_versions (ops : List AOp) :
    (∀ aid a, alookup (applyAOps ops).assistants aid = some a →
      ∃ av ∈ (applyAOps ops).assistant_versions,
        av.assistant_id = a.assistant_id ∧ av.version = a.version) ∧
    (∀ assistantId options now a2 S2,
      Assistants.patch (applyAOps ops) assistantId options now = .ok (a2, S2) →
      ((a2.version - 1) ∈ (((applyAOps ops).assistant_versions.filter
          (fun v => v.assistant_id == assistantId)).map (fun v => v.version)) ∧
        ∀ v ∈ (((applyAOps ops).assistant_versions.filter
          (fun v => v.assistant_id == assistantId)).map (fun v => v.version)),
          v ≤ a2.version - 1) ∧
      alookup S2.assistants assistantId = some a2 ∧
      S2.assistant_versions = (applyAOps ops).assistant_versions ++
        [{ assistant_id := assistantId, version := a2.version, graph_id := a2.graph_id,
           config := a2.config, name := a2.name, metadata := a2.metadata,
           created_at := now }]) := by
  obtain ⟨h1, h2⟩ := ainv_applyAOps ops
  constructor
  · intro aid a hla
    obtain ⟨hid, av, hmem, hp1, hp2⟩ := h1 aid a hla
    exact ⟨av, hmem, by rw [hp1, hid], hp2⟩
  · intro assistantId options now a2 S2 hres
    obtain ⟨⟨a0, hla0, hid0⟩, hver, hassist, hvers⟩ :=
      assistants_patch_ok (applyAOps ops) assistantId options now a2 S2 hres
    obtain ⟨hid00, av0, hmem0, hq1, hq2⟩ := h1 assistantId a0 hla0
    have hmemf : av0.version ∈ (((applyAOps ops).assistant_versions.filter
        (fun v => v.assistant_id == assistantId)).map (fun v => v.version)) :=
      List.mem_map.mpr ⟨av0, List.mem_filter.mpr ⟨hmem0, beq_iff_eq.mpr hq1⟩, rfl⟩
    have hpos : ∀ x ∈ (((applyAOps ops).assistant_versions.filter
        (fun v => v.assistant_id == assistantId)).map (fun v => v.version)), 1 ≤ x := by
      intro x hx
      obtain ⟨v, hv, hvx⟩ := List.mem_map.mp hx
      rw [← hvx]
      exact h2 v (List.mem_of_mem_filter hv)
    have hne : (((applyAOps ops).assistant_versions.filter
        (fun v => v.assistant_id == assistantId)).map (fun v => v.version)) ≠ [] := by
      intro hE
      rw [hE] at hmemf
      exact absurd hmemf (List.not_mem_nil _)
    obtain ⟨hmm, hub⟩ := jsMathMax_spec _ hne hpos
    have hsimp : a2.version - 1 = jsMathMax (((applyAOps ops).assistant_versions.filter
        (fun v => v.assistant_id == assistantId)).map (fun v => v.version)) := by
      rw [hver]
      ring
    refine ⟨⟨by rw [hsimp]; exact hmm, ?_⟩, ?_, hvers⟩
    · intro v hv
      rw [hsimp]
      exact hub v hv
    · rw [hassist, alookup_aset, if_pos (by simp)]

/-- Witness for C7: patching assistant a1, created at version 1, bumps it to
version 2 and stores it live. -/
theorem claim7_witness :
    Assistants.patch (applyAOps w7ops) "a1" {} 7 = .ok (w7res.1, w7res.2) ∧
    alookup w7res.2.assistants "a1" = some w7res.1 :=
  ⟨rfl, ((claim7_assistant_versions w7ops).2 "a1" {} 7 w7res.1 w7res.2 rfl).2.1⟩

theorem insertByTime_mem (r y : Run) :
    ∀ (l : List Run), y ∈ insertByTime r l ↔ y = r ∨ y ∈ l := by
  intro l
  induction l with
  | nil => simp [insertByTime]
  | cons x xs ih =>
    unfold insertByTime
    by_cases hle : x.created_at ≤ r.created_at
    · rw [if_pos hle, List.mem_cons, ih, List.mem_cons]
      tauto
    · rw [if_neg hle, List.mem_cons]

theorem insertByTime_sorted (r : Run) :
    ∀ (l : List Run), List.Pairwise (fun a b => a.created_at ≤ b.created_at) l →
      List.Pairwise (fun a b => a.created_at ≤ b.created_at) (insertByTime r l) := by
  intro l
  induction l with
  | nil =>
    intro _
    exact List.pairwise_singleton _ r
  | cons x xs ih =>
    intro h
    rw [List.pairwise_cons] at h
    obtain ⟨hx, hxs⟩ := h
    unfold insertByTime
    by_cases hle : x.created_at ≤ r.created_at
    · rw [if_pos hle]
      rw [List.pairwise_cons]
      refine ⟨?_, ih hxs⟩
      intro y hy
      rcases (insertByTime_mem r y xs).mp hy with h1 | h2
      · rw [h1]
        exact hle
      · exact hx y h2
    · rw [if_neg hle]
      have hrx : r.created_at ≤ x.created_at := le_of_lt (not_le.mp hle)
      rw [List.pairwise_cons]
      refine ⟨?_, List.pairwise_cons.mpr ⟨hx, hxs⟩⟩
      intro y hy
      rcases List.mem_cons.mp hy with h1 | h2
      · rw [h1]
        exact hrx
      · exact le_trans hrx (hx y h2)

theorem insertByTime_perm (r : Run) :
    ∀ (l : List Run), (insertByTime r l).Perm (r :: l) := by
  intro l
  induction l with
  | nil => exact List.Perm.refl _
  | cons x xs ih =>
    unfold insertByTime
    by_cases hle : x.created_at ≤ r.created_at
    · rw [if_pos hle]
      exact (List.Perm.cons x ih).trans (List.Perm.swap r x xs)
    · rw [if_neg hle]

theorem insertByTime_filter_ne (r : Run) (t : Int) (hrt : (r.created_at == t) = false) :
    ∀ (l : List Run),
      (insertByTime r l).filter (fun x => x.created_at == t) =
        l.filter (fun x => x.created_at == t) := by
  intro l
  induction l with
  | nil =>
    unfold insertByTime
    rw [List.filter_singleton, hrt]
    rfl
  | cons x xs ih =>
    unfold insertByTime
    by_cases hle : x.created_at ≤ r.created_at
    · rw [if_pos hle, List.filter_cons, List.filter_cons, ih]
    · rw [if_neg hle, List.filter_cons_of_neg (by rw [hrt]; exact Bool.false_ne_true)]

theorem insertByTime_filter_eq (r : Run) (t : Int) (hrt : (r.created_at == t) = true) :
    ∀ (l : List Run), List.Pairwise (fun a b => a.created_at ≤ b.created_at) l →
      (insertByTime r l).filter (fun x => x.created_at == t) =
        l.filter (fun x => x.created_at == t) ++ [r] := by
  intro l
  induction l with
  | nil =>
    intro _
    unfold insertByTime
    rw [List.filter_singleton, hrt]
    rfl
  | cons x xs ih =>
    intro h
    rw [List.pairwise_cons] at h
    obtain ⟨hx, hxs⟩ := h
    unfold insertByTime
    by_cases hle : x.created_at ≤ r.created_at
    · rw [if_pos hle, List.filter_cons, List.filter_cons, ih hxs]
      by_cases hxt : (x.created_at == t) = true
      · rw [if_pos hxt, if_pos hxt, List.cons_append]
      · rw [if_neg hxt, if_neg hxt]
    · have hlt : r.created_at < x.created_at := not_le.mp hle
      have hteq : r.created_at = t := beq_iff_eq.mp hrt
      have hnone : ∀ y ∈ x :: xs, (y.created_at == t) = false := by
        intro y hy
        have hty : t < y.created_at := by
          rcases List.mem_cons.mp hy with h1 | h2
          · rw [h1]
            omega
          · have := hx y h2
            omega
        rw [beq_eq_false_iff_ne]
        omega
      rw [if_neg hle, List.filter_cons, if_pos hrt,
        List.filter_eq_nil_iff.mpr (fun a ha => by
          rw [hnone a ha]
          exact Bool.false_ne_true)]
      rfl

/-- Sortedness, permutation and per-time stability of the picker sort,
generalized over the fold accumulator. -/
theorem sortByTime_acc :
    ∀ (l acc : List Run),
      List.Pairwise (fun a b => a.created_at ≤ b.created_at) acc →
      List.Pairwise (fun a b => a.created_at ≤ b.created_at)
        (l.foldl (fun acc r => insertByTime r acc) acc) ∧
      (l.foldl (fun acc r => insertByTime r acc) acc).Perm (acc ++ l) ∧
      ∀ t, (l.foldl (fun acc r => insertByTime r acc) acc).filter
          (fun x => x.created_at == t) =
        acc.filter (fun x => x.created_at == t) ++
          l.filter (fun x => x.created_at == t) := by
  intro l
  induction l with
  | nil =>
    intro acc hs
    exact ⟨hs, by simp, fun t => by simp⟩
  | cons r rest ih =>
    intro acc hs
    rw [List.foldl_cons]
    obtain ⟨ihs, ihp, ihf⟩ := ih (insertByTime r acc) (insertByTime_sorted r acc hs)
    refine ⟨ihs, ?_, ?_⟩
    · refine ihp.trans ?_
      refine ((insertByTime_perm r acc).append_right rest).trans ?_
      exact List.perm_middle.symm
    · intro t
      rw [ihf t]
      cases hrt : r.created_at == t
      · rw [insertByTime_filter_ne r t hrt acc,
          List.filter_cons_of_neg (by rw [hrt]; exact Bool.false_ne_true)]
      · rw [insertByTime_filter_eq r t hrt acc hs, List.filter_cons, if_pos hrt,
          List.append_assoc]
        rfl

/-- The picker sort is sorted, a permutation of its input, and stable:
runs tied at a time keep their input order. -/
theorem sortByTime_spec (l : List Run) :
    List.Pairwise (fun a b => a.created_at ≤ b.created_at) (sortByTime l) ∧
    (sortByTime l).Perm l ∧
    ∀ t, (sortByTime l).filter (fun x => x.created_at == t) =
      l.filter (fun x => x.created_at == t) := by
  obtain ⟨hs, hp, hf⟩ := sortByTime_acc l [] (List.Pairwise.nil)
  refine ⟨hs, by simpa using hp, fun t => by simpa using hf t⟩

theorem adelete_aset_self (l : List (String × α)) (k : String) (v : α)
    (h : alookup l k = none) : adelete (aset l k v) k = l := by
  have hfind : l.find? (fun q => q.1 == k) = none := by
    cases hf : l.find? (fun q => q.1 == k) with
    | none => rfl
    | some p =>
      unfold alookup at h
      rw [hf] at h
      exact Option.noConfusion h
  have hnok : ∀ p ∈ l, (p.1 != k) = true := by
    intro p hp
    have hne := List.find?_eq_none.mp hfind p hp
    cases hq : p.1 == k
    · simp [bne, hq]
    · exact absurd hq hne
  have hany : l.any (fun p => p.1 == k) = false := by
    cases hq : l.any (fun p => p.1 == k)
    · rfl
    · obtain ⟨p, hp, hpk⟩ := List.any_eq_true.mp hq
      exact absurd hpk (List.find?_eq_none.mp hfind p hp)
  unfold aset adelete
  rw [if_neg (ne_true_of_eq_false hany), List.filter_append,
    List.filter_eq_self.mpr hnok]
  simp

theorem nextLoop_spec (threads : List (String × Thread)) :
    ∀ (l : List Run) (counters : List (String × Int)) (control : List (String × Signal)),
      (l.map (fun r => r.run_id)).Nodup →
      (nextLoop threads l counters control).1.map (fun p => p.1) =
        l.filter (fun run => (alookup threads run.thread_id).isSome &&
          !((alookup control run.run_id).isSome)) ∧
      (∀ p ∈ (nextLoop threads l counters control).1,
        p.2.1 = (alookup counters p.1.run_id).getD 0 + 1 ∧
        alookup (nextLoop threads l counters control).2.1 p.1.run_id = some p.2.1 ∧
        p.2.2 = Signal.mk p.1.run_id) ∧
      (∀ x, x ∉ l.map (fun r => r.run_id) →
        alookup (nextLoop threads l counters control).2.1 x = alookup counters x) ∧
      (nextLoop threads l counters control).2.2 = control := by
  intro l
  induction l with
  | nil =>
    intro counters control _
    exact ⟨rfl, fun p hp => absurd hp (List.not_mem_nil p), fun x _ => rfl, rfl⟩
  | cons run rest ih =>
    intro counters control hnd
    rw [List.map_cons, List.nodup_cons] at hnd
    obtain ⟨hni, hndr⟩ := hnd
    rcases hth : alookup threads run.thread_id with _ | t
    · -- thread missing: skipped
      simp only [nextLoop, hth]
      rw [if_pos (show (none : Option Thread).isNone = true from rfl)]
      obtain ⟨ihm, iha, ihu, ihc⟩ := ih counters control hndr
      refine ⟨?_, iha, ?_, ihc⟩
      · rw [List.filter_cons_of_neg (by simp [hth])]
        exact ihm
      · intro x hx
        exact ihu x (fun hm => hx (List.mem_cons_of_mem _ hm))
    · rcases hlk : alookup control run.run_id with _ | s
      · -- thread exists, no controller registered: lock and yield
        have hC3 : adelete (aset control run.run_id (⟨run.run_id⟩ : Signal))
            run.run_id = control :=
          adelete_aset_self control run.run_id _ hlk
        simp only [nextLoop, hth]
        rw [if_neg (by simp), if_neg (by rw [hlk]; simp), hC3]
        obtain ⟨ihm, iha, ihu, ihc⟩ :=
          ih (aset counters run.run_id ((alookup counters run.run_id).getD 0 + 1))
            control hndr
        have hmemtail : ∀ p ∈ (nextLoop threads rest
            (aset counters run.run_id ((alookup counters run.run_id).getD 0 + 1))
            control).1,
            p.1.run_id ∈ rest.map (fun r => r.run_id) := by
          intro p hp
          have hmm : p.1 ∈ (nextLoop threads rest
              (aset counters run.run_id ((alookup counters run.run_id).getD 0 + 1))
              control).1.map (fun q => q.1) :=
            List.mem_map_of_mem _ hp
          rw [ihm] at hmm
          exact List.mem_map_of_mem _ (List.mem_of_mem_filter hmm)
        refine ⟨?_, ?_, ?_, ihc⟩
        · rw [List.filter_cons_of_pos (by simp [hth, hlk]), List.map_cons, ihm]
        · intro p hp
          rcases List.mem_cons.mp hp with h1 | h2
          · subst h1
            refine ⟨rfl, ?_, rfl⟩
            show alookup (nextLoop threads rest
              (aset counters run.run_id ((alookup counters run.run_id).getD 0 + 1))
              control).2.1 run.run_id =
              some ((alookup counters run.run_id).getD 0 + 1)
            rw [ihu run.run_id hni, alookup_aset, if_pos (by simp)]
          · obtain ⟨ha1, ha2, ha3⟩ := iha p h2
            refine ⟨?_, ha2, ha3⟩
            rw [ha1, alookup_aset, if_neg (by
              simp only [beq_iff_eq]
              exact fun he => hni (by rw [he]; exact hmemtail p h2))]
        · intro x hx
          rw [ihu x (fun hm => hx (List.mem_cons_of_mem _ hm)), alookup_aset,
            if_neg (by
              simp only [beq_iff_eq]
              exact fun he => hx (by rw [← he]; exact List.mem_cons_self _ _))]
      · -- locked in the stream manager: skipped
        simp only [nextLoop, hth]
        rw [if_neg (by simp), if_pos (by rw [hlk]; rfl)]
        obtain ⟨ihm, iha, ihu, ihc⟩ := ih counters control hndr
        refine ⟨?_, iha, ?_, ihc⟩
        · rw [List.filter_cons_of_neg (by simp [hth, hlk])]
          exact ihm
        · intro x hx
          exact ihu x (fun hm => hx (List.mem_cons_of_mem _ hm))

/-- Counterexample to C1 as stated: on `pickStore` at `now = 5` the picker
yields `b` before `a` (store order, not run_id order, breaks the tie at
created_at 1), skips `d` (missing thread) and excludes `c`
(created_at = now is not yielded), while the claimed ids are a, b, d, c. -/
theorem claim1_counterexample :
    (Runs.next pickStore [] 5).1.map (fun p => p.1.run_id) = ["b", "a"] ∧
    specPickIds pickStore [] 5 = ["a", "b", "d", "c"] ∧
    (Runs.next pickStore [] 5).1.map (fun p => p.1.run_id) ≠
      specPickIds pickStore [] 5 := by
  exact ⟨by decide, by decide, by decide⟩

/-- C1 (amended): with well-keyed, duplicate-free runs, `Runs.next` yields
exactly the pending runs created strictly before `now`, sorted ascending by
`created_at` with the sort stable (ties keep store insertion order), keeping
only those whose thread exists and that are not locked in the stream manager;
for each yielded run it acquires a cancellation handle — the yielded signal is
the handle registered for that run's id — and increments that run's retry
counter before yielding, the attempt being the previous counter plus one as
recorded in the returned document; every handle is released after its yield,
so the final control map, runs and threads are unchanged. -/
theorem claim1_next (S : Store) (control : List (String × Signal)) (now : Int)
    (hkeys : ∀ p ∈ S.runs, (p.2 : Run).run_id = p.1)
    (hnd : (S.runs.map Prod.fst).Nodup) :
    (Runs.next S control now).1.map (fun p => p.1) =
      (sortByTime ((S.runs.map Prod.snd).filter
        (fun run => run.status == RunStatus.pending && run.created_at < now))).filter
        (fun run => (alookup S.threads run.thread_id).isSome &&
          !((alookup control run.run_id).isSome)) ∧
    List.Pairwise (fun a b => a.1.created_at ≤ b.1.created_at)
      (Runs.next S control now).1 ∧
    (∀ t, (sortByTime ((S.runs.map Prod.snd).filter
        (fun run => run.status == RunStatus.pending && run.created_at < now))).filter
        (fun r => r.created_at == t) =
      ((S.runs.map Prod.snd).filter
        (fun run => run.status == RunStatus.pending && run.created_at < now)).filter
        (fun r => r.created_at == t)) ∧
    (∀ p ∈ (Runs.next S control now).1,
      p.2.1 = (alookup S.retry_counter p.1.run_id).getD 0 + 1 ∧
      alookup (Runs.next S control now).2.1.retry_counter p.1.run_id = some p.2.1 ∧
      p.2.2 = Signal.mk p.1.run_id) ∧
    (Runs.next S control now).2.2 = control ∧
    (Runs.next S control now).2.1.runs = S.runs ∧
    (Runs.next S control now).2.1.threads = S.threads := by
  have hcomp : (S.runs.map Prod.snd).map (fun r => r.run_id) = S.runs.map Prod.fst := by
    rw [List.map_map]
    exact List.map_congr_left (fun p hp => hkeys p hp)
  have h2 : ((S.runs.map Prod.snd).map (fun r => r.run_id)).Nodup := by
    rw [hcomp]
    exact hnd
  have hpnd : ((((S.runs.map Prod.snd).filter
      (fun run => run.status == RunStatus.pending && run.created_at < now))).map
      (fun r => r.run_id)).Nodup :=
    List.Nodup.sublist (List.Sublist.map (fun r : Run => r.run_id)
      (List.filter_sublist _)) h2
  obtain ⟨hs, hperm, hstab⟩ := sortByTime_spec ((S.runs.map Prod.snd).filter
    (fun run => run.status == RunStatus.pending && run.created_at < now))
  have hsnd : ((sortByTime ((S.runs.map Prod.snd).filter
      (fun run => run.status == RunStatus.pending && run.created_at < now))).map
      (fun r => r.run_id)).Nodup :=
    ((hperm.map (fun r => r.run_id)).nodup_iff).mpr hpnd
  obtain ⟨hm, ha, hu, hc⟩ := nextLoop_spec S.threads
    (sortByTime ((S.runs.map Prod.snd).filter
      (fun run => run.status == RunStatus.pending && run.created_at < now)))
    S.retry_counter control hsnd
  refine ⟨hm, ?_, hstab, ha, hc, rfl, rfl⟩
  have hfp : List.Pairwise (fun a b => a.created_at ≤ b.created_at)
      ((sortByTime ((S.runs.map Prod.snd).filter
        (fun run => run.status == RunStatus.pending && run.created_at < now))).filter
        (fun run => (alookup S.threads run.thread_id).isSome &&
          !((alookup control run.run_id).isSome))) :=
    List.Pairwise.sublist (List.filter_sublist _) hs
  have hmp : List.Pairwise (fun a b => a.created_at ≤ b.created_at)
      ((Runs.next S control now).1.map (fun p => p.1)) := by
    have hm2 : (Runs.next S control now).1.map (fun p => p.1) =
        (sortByTime ((S.runs.map Prod.snd).filter
          (fun run => run.status == RunStatus.pending && run.created_at < now))).filter
          (fun run => (alookup S.threads run.thread_id).isSome &&
            !((alookup control run.run_id).isSome)) := hm
    rw [hm2]
    exact hfp
  exact List.Pairwise.of_map (fun p => p.1) (fun a b h => h) hmp

/-- Witness for C1 (amended) on `pickStore`: the hypotheses hold, the yielded
runs are the sorted, thread-existing, unlocked pending runs, and each comes
with the cancellation handle acquired for its id and the bumped attempt. -/
theorem claim1_witness :
    (∀ p ∈ pickStore.runs, (p.2 : Run).run_id = p.1) ∧
    (pickStore.runs.map Prod.fst).Nodup ∧
    ((Runs.next pickStore [] 5).1.map (fun p => p.1) =
      (sortByTime ((pickStore.runs.map Prod.snd).filter
        (fun run => run.status == RunStatus.pending && run.created_at < 5))).filter
        (fun run => (alookup pickStore.threads run.thread_id).isSome &&
          !((alookup ([] : List (String × Signal)) run.run_id).isSome)) ∧
      ∀ p ∈ (Runs.next pickStore [] 5).1,
        p.2.1 = (alookup pickStore.retry_counter p.1.run_id).getD 0 + 1 ∧
        alookup (Runs.next pickStore [] 5).2.1.retry_counter p.1.run_id = some p.2.1 ∧
        p.2.2 = Signal.mk p.1.run_id) :=
  ⟨by decide, by decide,
    (claim1_next pickStore [] 5 (by decide) (by decide)).1,
    (claim1_next pickStore [] 5 (by decide) (by decide)).2.2.2.1⟩
